import Mathlib

/-!
Verification of the protocol dispatcher and content renderer of the
`poke-mcp-server-template-cloudflare` worker (`src/index.ts`).

The pure string-processing code (`extractText`) is embedded character by
character: each JavaScript `String.replace` with a global regex is modelled by
a left-to-right scanner (`scanRepl`) driven by a matcher function that mirrors
the regex (leftmost match, continue after the match end, replacement text not
rescanned).  Case-insensitive (`/i`) matching is modelled for the ASCII range
via `asciiLower`, which is what the patterns in the source exercise.

The HTTP/JSON-RPC dispatcher is embedded over an explicit JSON value type
`JVal`; network fetch helpers (`fetchWikiPage`, `getWikiPages`, `getBlogPosts`,
`fetchBlogPost`, `getGitHubProfile`, `getGitHubRepo`, `getMastodonPosts`) are
oracles whose result types mirror the TypeScript result shapes.
-/

namespace CaseyMCP

/-- ASCII lower-casing, the fragment of JavaScript regex `/i` folding exercised
by the patterns in `extractText` (all pattern letters are ASCII). -/
def asciiLower (c : Char) : Char :=
  match c with
  | 'A' => 'a' | 'B' => 'b' | 'C' => 'c' | 'D' => 'd' | 'E' => 'e' | 'F' => 'f'
  | 'G' => 'g' | 'H' => 'h' | 'I' => 'i' | 'J' => 'j' | 'K' => 'k' | 'L' => 'l'
  | 'M' => 'm' | 'N' => 'n' | 'O' => 'o' | 'P' => 'p' | 'Q' => 'q' | 'R' => 'r'
  | 'S' => 's' | 'T' => 't' | 'U' => 'u' | 'V' => 'v' | 'W' => 'w' | 'X' => 'x'
  | 'Y' => 'y' | 'Z' => 'z'
  | c => c

/-- Case-insensitive comparison of a (lower-case) pattern character `p` with an
input character `c`, as JavaScript `/i` does on ASCII. -/
def ciEq (p c : Char) : Bool := p == asciiLower c

/-- Case-sensitive character comparison (patterns without `/i`). -/
def csEq (p c : Char) : Bool := p == c

/-- `startsWithBy eqc pat s`: does `s` start with `pat`, comparing characters
with `eqc`? -/
def startsWithBy (eqc : Char → Char → Bool) : List Char → List Char → Bool
  | [], _ => true
  | _ :: _, [] => false
  | p :: ps, c :: cs => eqc p c && startsWithBy eqc ps cs

/-- `occursWith eqc pat s`: does `pat` occur (under `eqc`) anywhere in `s`?
(For the nonempty patterns used here.) -/
def occursWith (eqc : Char → Char → Bool) (pat : List Char) : List Char → Bool
  | [] => false
  | c :: cs => startsWithBy eqc pat (c :: cs) || occursWith eqc pat cs

/-- Length of the maximal prefix of `s` whose characters satisfy `p`. -/
def countWhile (p : Char → Bool) : List Char → Nat
  | [] => 0
  | c :: cs => if p c then countWhile p cs + 1 else 0

/-- Drop characters up to and including the first `'>'`
(the regex fragment `[^>]*>`); `none` when there is no `'>'`. -/
def dropThroughGt : List Char → Option (List Char)
  | [] => none
  | c :: cs => if c == '>' then some cs else dropThroughGt cs

/-- Remainder of `s` after the first case-insensitive occurrence of `pat`
(the lazy regex fragment `[\s\S]*?pat`); `none` when `pat` does not occur. -/
def findCloseCI (pat : List Char) : List Char → Option (List Char)
  | [] => none
  | c :: cs =>
    if startsWithBy ciEq pat (c :: cs) then some ((c :: cs).drop pat.length)
    else findCloseCI pat cs

/-- One global-regex replacement pass.  The matcher `m` inspects the current
suffix; `some (len, rep)` consumes `len ≥ 1` characters and emits `rep`
(scanning resumes after the match, as JavaScript `String.replace` with a `/g`
regex does); `none` emits the current character and advances by one. -/
def scanRepl (m : List Char → Option (Nat × List Char)) : Nat → List Char → List Char
  | _, [] => []
  | Nat.succ k, _ :: cs => scanRepl m k cs
  | 0, c :: cs =>
    match m (c :: cs) with
    | some (len, rep) => rep ++ scanRepl m (len - 1) cs
    | none => c :: scanRepl m 0 cs

/-- The ASCII part of JavaScript `\s` / `String.trim` whitespace (the inputs
considered here are ASCII). -/
def wsJS (c : Char) : Bool :=
  c == ' ' || c == '\t' || c == '\n' || c == '\r' || c == '\x0b' || c == '\x0c'

/-- JavaScript `String.prototype.trim` on ASCII text: drop whitespace from both
ends. -/
def jsTrim (s : List Char) : List Char :=
  ((s.dropWhile wsJS).reverse.dropWhile wsJS).reverse

/-- literal pattern `<script` -/
def scriptOpen : List Char := ['<', 's', 'c', 'r', 'i', 'p', 't']
/-- literal pattern `</script>` -/
def scriptClose : List Char := ['<', '/', 's', 'c', 'r', 'i', 'p', 't', '>']
/-- literal pattern `<style` -/
def styleOpen : List Char := ['<', 's', 't', 'y', 'l', 'e']
/-- literal pattern `</style>` -/
def styleClose : List Char := ['<', '/', 's', 't', 'y', 'l', 'e', '>']
/-- literal pattern `<br` -/
def brOpen : List Char := ['<', 'b', 'r']
/-- literal pattern `</p>` -/
def pClose : List Char := ['<', '/', 'p', '>']
/-- literal pattern `</div>` -/
def divClose : List Char := ['<', '/', 'd', 'i', 'v', '>']
/-- literal pattern `<li>` -/
def liOpen : List Char := ['<', 'l', 'i', '>']
/-- literal pattern `</li>` -/
def liClose : List Char := ['<', '/', 'l', 'i', '>']
/-- pattern `\n{3,}` trigger -/
def nl3 : List Char := ['\n', '\n', '\n']
/-- pattern `(space space)` used to state freedom from double spaces -/
def sp2 : List Char := [' ', ' ']

/-- Matcher for `/<open[^>]*>[\s\S]*?close/gi` (script and style blocks):
the case-insensitive open tag, then everything up to the first `'>'`, then
lazily up to the first case-insensitive occurrence of the close tag. -/
def mBlock (openTag closeTag : List Char) (s : List Char) : Option (Nat × List Char) :=
  if startsWithBy ciEq openTag s then
    match dropThroughGt (s.drop openTag.length) with
    | none => none
    | some afterOpen =>
      match findCloseCI closeTag afterOpen with
      | none => none
      | some rest => some (s.length - rest.length, [])
  else none

/-- `/<script[^>]*>[\s\S]*?<\/script>/gi → ''` -/
def mScript : List Char → Option (Nat × List Char) := mBlock scriptOpen scriptClose

/-- `/<style[^>]*>[\s\S]*?<\/style>/gi → ''` -/
def mStyle : List Char → Option (Nat × List Char) := mBlock styleOpen styleClose

/-- `/<br\s*\/?>/gi → '\n'` -/
def mBr (s : List Char) : Option (Nat × List Char) :=
  if startsWithBy ciEq brOpen s then
    match (s.drop 3).dropWhile wsJS with
    | '/' :: '>' :: r => some (s.length - r.length, ['\n'])
    | '>' :: r => some (s.length - r.length, ['\n'])
    | _ => none
  else none

/-- Case-insensitive literal replacement (the `/gi` literal-tag regexes). -/
def mLitCI (pat rep : List Char) (s : List Char) : Option (Nat × List Char) :=
  if startsWithBy ciEq pat s then some (pat.length, rep) else none

/-- Case-sensitive literal replacement (the entity regexes, no `/i`). -/
def mLit (pat rep : List Char) (s : List Char) : Option (Nat × List Char) :=
  if startsWithBy csEq pat s then some (pat.length, rep) else none

/-- `/<\/h[1-6]>/gi → '\n\n'` -/
def mH (s : List Char) : Option (Nat × List Char) :=
  match s with
  | '<' :: '/' :: c :: d :: '>' :: _ =>
    if ciEq 'h' c && (d == '1' || d == '2' || d == '3' || d == '4' || d == '5' || d == '6')
    then some (5, ['\n', '\n']) else none
  | _ => none

/-- `/<[^>]+>/g → ''`: a `'<'`, at least one non-`'>'`, then the first `'>'`. -/
def mTag (s : List Char) : Option (Nat × List Char) :=
  match s with
  | '<' :: c :: rest =>
    if c == '>' then none
    else
      match dropThroughGt (c :: rest) with
      | some r => some (s.length - r.length, [])
      | none => none
  | _ => none

/-- `/\n{3,}/g → '\n\n'` (greedy: the whole maximal newline run). -/
def mNl3 (s : List Char) : Option (Nat × List Char) :=
  if startsWithBy csEq nl3 s then some (countWhile (· == '\n') s, ['\n', '\n']) else none

/-- `/[ \t]+/g → ' '` (greedy: the whole maximal run of spaces and tabs). -/
def mSpTab (s : List Char) : Option (Nat × List Char) :=
  match s with
  | [] => none
  | c :: _ =>
    if c == ' ' || c == '\t'
    then some (countWhile (fun c => c == ' ' || c == '\t') s, [' '])
    else none

/-- The `extractText` pipeline after its first stage (style stripping through
final trim), in source order. -/
def afterScripts (t0 : List Char) : List Char :=
  let t1 := scanRepl mStyle 0 t0
  let t2 := scanRepl mBr 0 t1
  let t3 := scanRepl (mLitCI pClose ['\n', '\n']) 0 t2
  let t4 := scanRepl (mLitCI divClose ['\n']) 0 t3
  let t5 := scanRepl mH 0 t4
  let t6 := scanRepl (mLitCI liOpen ['•', ' ']) 0 t5
  let t7 := scanRepl (mLitCI liClose ['\n']) 0 t6
  let t8 := scanRepl mTag 0 t7
  let t9 := scanRepl (mLit ['&', 'n', 'b', 's', 'p', ';'] [' ']) 0 t8
  let t10 := scanRepl (mLit ['&', 'a', 'm', 'p', ';'] ['&']) 0 t9
  let t11 := scanRepl (mLit ['&', 'l', 't', ';'] ['<']) 0 t10
  let t12 := scanRepl (mLit ['&', 'g', 't', ';'] ['>']) 0 t11
  let t13 := scanRepl (mLit ['&', 'q', 'u', 'o', 't', ';'] ['"']) 0 t12
  let t14 := scanRepl (mLit ['&', '#', '3', '9', ';'] ['\'']) 0 t13
  let t15 := scanRepl mNl3 0 t14
  let t16 := scanRepl mSpTab 0 t15
  jsTrim t16

/-- `extractText` of `src/index.ts` (lines 102–121) on character lists. -/
def extractTextL (s : List Char) : List Char :=
  afterScripts (scanRepl mScript 0 s)

/-- `extractText` of `src/index.ts`: strip script/style blocks, turn break and
block-closing tags into newlines, strip the remaining tags, decode the six
entities, collapse newlines and horizontal whitespace, trim. -/
def extractText (s : String) : String := ⟨extractTextL s.data⟩

/-! ## JSON values and the request/response protocol layer

JavaScript runtime values reachable from a parsed JSON body.  Numbers are
modelled as integers (none of the dispatcher's behaviour verified here
depends on fractional or non-finite numbers).  Absence of an object field
models the JavaScript `undefined`. -/

/-- A parsed JSON value. -/
inductive JVal where
  | null : JVal
  | bool (b : Bool) : JVal
  | num (n : Int) : JVal
  | str (s : String) : JVal
  | arr (elems : List JVal) : JVal
  | obj (fields : List (String × JVal)) : JVal

/-- Field access on a value of unknown shape (`v.k` in JavaScript):
`none` models `undefined`. -/
def getField (v : JVal) (k : String) : Option JVal :=
  match v with
  | .obj fields => fields.lookup k
  | _ => none

/-- Optional chaining `v?.k`: `undefined` when `v` is absent or has no
properties. -/
def optChain (v : Option JVal) (k : String) : Option JVal :=
  match v with
  | some (.obj fields) => fields.lookup k
  | _ => none

/-- JavaScript truthiness of a present value. -/
def jsTruthy : JVal → Bool
  | .null => false
  | .bool b => b
  | .num n => !(n == 0)
  | .str s => !(s == "")
  | .arr _ => true
  | .obj _ => true

/-- JavaScript `String(v)`, as used in the template-literal error messages
(object and array rendering abbreviated to the cases exercised here). -/
def jsString : JVal → String
  | .null => "null"
  | .bool true => "true"
  | .bool false => "false"
  | .num n => toString n
  | .str s => s
  | .arr _ => ""
  | .obj _ => "[object Object]"

/-- Is the value a string?  (JavaScript `typeof v === "string"`.) -/
def isStrB : JVal → Bool
  | .str _ => true
  | _ => false

/-- Is the value a number?  (JavaScript `typeof v === "number"`.) -/
def isNumB : JVal → Bool
  | .num _ => true
  | _ => false

/-- `isMCPRequest` (`src/index.ts` lines 73–78): the body is a non-null
object (arrays pass `typeof` but have no `method` property and fail the
string test), `method` is a string, and `id` is absent, a string or a
number. -/
def isMCPRequest (body : JVal) : Bool :=
  match body with
  | .obj fields =>
    (match fields.lookup "method" with
     | some (.str _) => true
     | _ => false) &&
    (match fields.lookup "id" with
     | none => true
     | some (.str _) => true
     | some (.num _) => true
     | some _ => false)
  | _ => false

/-- `isOptionalStringArg` (lines 83–91): accepts `undefined`/`null`, rejects
non-objects, and for objects requires each of `path`, `slug`, `repo` to be
absent or a string (arrays are `typeof "object"` and carry none of the
keys). -/
def isOptionalStringArg (args : Option JVal) : Bool :=
  match args with
  | none => true
  | some .null => true
  | some (.obj fields) =>
    (["path", "slug", "repo"] : List String).all fun k =>
      match fields.lookup k with
      | none => true
      | some (.str _) => true
      | some _ => false
  | some (.arr _) => true
  | some _ => false

/-- `isOptionalNumberArg` (lines 93–99): accepts `undefined`/`null`, rejects
non-objects, and for objects requires `limit` to be absent or a number. -/
def isOptionalNumberArg (args : Option JVal) : Bool :=
  match args with
  | none => true
  | some .null => true
  | some (.obj fields) =>
    (match fields.lookup "limit" with
     | none => true
     | some (.num _) => true
     | some _ => false)
  | some (.arr _) => true
  | some _ => false

/-! ### Tool results and handlers -/

/-- One entry of a tool result's `content` array. -/
structure ContentItem where
  ctype : String
  text : String

/-- The tool-result shape `{ content: [...], isError?: true }`; `isError` is
`none` when the field is absent from the object. -/
structure CallResult where
  content : List ContentItem
  isError : Option Bool

/-- `toolResult` (lines 140–142): one text content item; the spread
`...(isError && { isError: true })` adds the field only when the flag is
`true`. -/
def toolResult (text : String) (isErr : Bool := false) : CallResult :=
  { content := [⟨"text", text⟩], isError := if isErr then some true else none }

/-- Truthiness of an optional string (`undefined` and `""` are falsy). -/
def oStrTruthy : Option String → Bool
  | none => false
  | some s => !(s == "")

/-- Result shape of `fetchWikiPage` / `fetchBlogPost`: `{ text?, error? }`. -/
structure FetchTextRes where
  text : Option String
  error : Option String

/-- Result shape of `getWikiPages`: `{ pages?, error? }`. -/
structure WikiPagesRes where
  pages : Option (List String)
  error : Option String

/-- One parsed blog post (`{ title, slug, date? }`). -/
structure BlogPost where
  title : String
  slug : String
  date : Option String

/-- Result shape of `getBlogPosts`: `{ posts?, error? }`. -/
structure BlogPostsRes where
  posts : Option (List BlogPost)
  error : Option String

/-- A GitHub repository record (nullable JSON fields are `Option`). -/
structure GitHubRepo where
  name : String
  description : Option String
  html_url : String
  language : Option String
  stargazers_count : Nat
  forks_count : Nat
  updated_at : String
  topics : Option (List String)

/-- A GitHub profile record. -/
structure GitHubProfile where
  name : Option String
  bio : Option String
  company : Option String
  location : Option String
  blog : Option String
  public_repos : Nat
  followers : Nat
  following : Nat

/-- Result shape of `getGitHubProfile`: `{ profile?, repos?, error? }`. -/
structure GhProfileRes where
  profile : Option GitHubProfile
  repos : Option (List GitHubRepo)
  error : Option String

/-- Result shape of `getGitHubRepo`: `{ repo?, readme?, error? }`. -/
structure GhRepoRes where
  repo : Option GitHubRepo
  readme : Option String
  error : Option String

/-- A boosted status embedded in a Mastodon post. -/
structure MastodonReblog where
  content : String
  acct : String

/-- A Mastodon status record. -/
structure MastodonPost where
  id : String
  created_at : String
  content : String
  url : String
  reblogs_count : Nat
  favourites_count : Nat
  reblog : Option MastodonReblog

/-- A Mastodon account record. -/
structure MastodonAccount where
  id : String
  username : String
  display_name : String
  note : String
  followers_count : Nat
  following_count : Nat
  statuses_count : Nat

/-- Result shape of `getMastodonPosts`: `{ posts?, account?, error? }`. -/
structure MastoRes where
  posts : Option (List MastodonPost)
  account : Option MastodonAccount
  error : Option String

/-- The network fetch helpers of `src/index.ts`, as oracles: each field is the
result that the corresponding bounded-timeout helper would return. -/
structure Oracles where
  wikiPage : String → FetchTextRes
  wikiPages : WikiPagesRes
  blogPost : String → FetchTextRes
  blogPosts : BlogPostsRes
  ghRepo : String → GhRepoRes
  ghProfile : GhProfileRes
  masto : Int → MastoRes

/-- The validated argument bundle for the three string-argument tools
(each field is the raw `path` / `slug` / `repo` property when it is a
string, `none` when it is absent). -/
structure StrArgs where
  path : Option String
  slug : Option String
  repo : Option String

/-- The validated argument bundle for `getmastodon`. -/
structure NumArgs where
  limit : Option Int

/-- `handleGetWiki` (lines 181–189): a truthy `path` fetches one page,
otherwise the sitemap listing; a truthy `error` is a tool-level failure. -/
def handleGetWiki (o : Oracles) (args : StrArgs) : CallResult :=
  if oStrTruthy args.path then
    let r := o.wikiPage (args.path.getD "")
    if oStrTruthy r.error then toolResult (r.error.getD "") true
    else toolResult (r.text.getD "")
  else
    let r := o.wikiPages
    if oStrTruthy r.error then toolResult (r.error.getD "") true
    else
      toolResult ("Wiki pages (" ++
        toString (match r.pages with | some l => l.length | none => 0) ++ "):\n" ++
        (match r.pages with | some l => String.intercalate "\n" l | none => ""))

/-- One line of the blog listing
(`[date] title (slug)`, the date truncated at `"T"`). -/
def blogLine (p : BlogPost) : String :=
  (if oStrTruthy p.date then "[" ++ (((p.date.getD "").splitOn "T").headD "") ++ "] "
   else "") ++ p.title ++ " (" ++ p.slug ++ ")"

/-- `handleGetBlog` (lines 265–274). -/
def handleGetBlog (o : Oracles) (args : StrArgs) : CallResult :=
  if oStrTruthy args.slug then
    let r := o.blogPost (args.slug.getD "")
    if oStrTruthy r.error then toolResult (r.error.getD "") true
    else toolResult (r.text.getD "")
  else
    let r := o.blogPosts
    if oStrTruthy r.error then toolResult (r.error.getD "") true
    else
      toolResult ("Blog posts (" ++
        toString (match r.posts with | some l => l.length | none => 0) ++ "):\n" ++
        (match r.posts with
         | some l => String.intercalate "\n" (l.map blogLine)
         | none => ""))

/-- Fallback records standing for the non-null assertions `result.repo!`,
`result.profile!`, `result.account!`: the helpers populate these fields
whenever they report no error. -/
def defaultRepo : GitHubRepo := ⟨"", none, "", none, 0, 0, "", none⟩

/-- Fallback for `result.profile!` (see `defaultRepo`). -/
def defaultProfile : GitHubProfile := ⟨none, none, none, none, none, 0, 0, 0⟩

/-- Fallback for `result.account!` (see `defaultRepo`). -/
def defaultAccount : MastodonAccount := ⟨"", "", "", "", 0, 0, 0⟩

/-- The single-repository text (lines 352–359). -/
def repoText (r : GitHubRepo) (readme : Option String) : String :=
  "# " ++ r.name ++ "\n" ++
  (if oStrTruthy r.description then (r.description.getD "") ++ "\n\n" else "\n") ++
  "Language: " ++ (if oStrTruthy r.language then r.language.getD "" else "N/A") ++
  " | Stars: " ++ toString r.stargazers_count ++
  " | Forks: " ++ toString r.forks_count ++ "\n" ++
  "URL: " ++ r.html_url ++ "\n" ++
  (match r.topics with
   | some ts => if ts.length != 0 then "Topics: " ++ String.intercalate ", " ts ++ "\n" else ""
   | none => "") ++
  (if oStrTruthy readme then "\n---\n\n" ++ readme.getD "" else "")

/-- One bullet line of the repository listing (lines 375–381). -/
def repoLine (r : GitHubRepo) : String :=
  "• " ++ r.name ++
  (if oStrTruthy r.language then " (" ++ r.language.getD "" ++ ")" else "") ++
  (if r.stargazers_count != 0 then " ★" ++ toString r.stargazers_count else "") ++
  (if oStrTruthy r.description then " - " ++ r.description.getD "" else "") ++ "\n"

/-- The profile text (lines 365–383). -/
def profileText (p : GitHubProfile) (repos : List GitHubRepo) : String :=
  "# " ++ (if oStrTruthy p.name then p.name.getD "" else "caseyg") ++ "\n" ++
  (if oStrTruthy p.bio then p.bio.getD "" ++ "\n" else "") ++ "\n" ++
  (if oStrTruthy p.company then "Company: " ++ p.company.getD "" ++ "\n" else "") ++
  (if oStrTruthy p.location then "Location: " ++ p.location.getD "" ++ "\n" else "") ++
  (if oStrTruthy p.blog then "Website: " ++ p.blog.getD "" ++ "\n" else "") ++
  "Repos: " ++ toString p.public_repos ++
  " | Followers: " ++ toString p.followers ++
  " | Following: " ++ toString p.following ++ "\n" ++
  "\n## Recent Repositories\n\n" ++
  String.join (repos.map repoLine)

/-- `handleGetGithub` (lines 348–384). -/
def handleGetGithub (o : Oracles) (args : StrArgs) : CallResult :=
  if oStrTruthy args.repo then
    let r := o.ghRepo (args.repo.getD "")
    if oStrTruthy r.error then toolResult (r.error.getD "") true
    else toolResult (repoText (r.repo.getD defaultRepo) r.readme)
  else
    let r := o.ghProfile
    if oStrTruthy r.error then toolResult (r.error.getD "") true
    else toolResult (profileText (r.profile.getD defaultProfile) (r.repos.getD []))

/-- The clamped limit of `handleGetMastodon` (line 435):
`Math.min(Math.max(args?.limit || 10, 1), 40)`; `||` replaces an absent or
zero (falsy) limit by 10. -/
def mastoLimit (l : Option Int) : Int :=
  min (max (match l with | some v => if v == 0 then 10 else v | none => 10) 1) 40

/-- One line of the Mastodon post listing (lines 446–453). -/
def mastoPostLine (p : MastodonPost) : String :=
  "[" ++ ((p.created_at.splitOn "T").headD "") ++ "] " ++
  (match p.reblog with
   | some rb => "🔁 @" ++ rb.acct ++ ": " ++ extractText rb.content
   | none => extractText p.content) ++ "\n" ++
  "  ↳ " ++ p.url ++ " (★" ++ toString p.favourites_count ++
  " 🔁" ++ toString p.reblogs_count ++ ")\n\n"

/-- The Mastodon summary text (lines 440–453). -/
def mastoText (a : MastodonAccount) (posts : List MastodonPost) : String :=
  "# @" ++ a.username ++ " on social.coop\n" ++
  extractText a.note ++ "\n" ++
  "Posts: " ++ toString a.statuses_count ++
  " | Followers: " ++ toString a.followers_count ++
  " | Following: " ++ toString a.following_count ++ "\n" ++
  "\n## Recent Posts\n\n" ++
  String.join (posts.map mastoPostLine)

/-- `handleGetMastodon` (lines 434–456): clamp the limit, fetch, and either
report the error or format account and posts. -/
def handleGetMastodon (o : Oracles) (args : NumArgs) : CallResult :=
  let r := o.masto (mastoLimit args.limit)
  if oStrTruthy r.error then toolResult (r.error.getD "") true
  else toolResult (mastoText (r.account.getD defaultAccount) (r.posts.getD []))

/-! ### Dispatcher -/

/-- An HTTP response as the worker produces it: a status and an optional
serialized JSON body (`none` is the empty body of the 204 response). -/
structure HttpResponse where
  status : Nat
  body : Option JVal

/-- `createJsonResponse` (lines 133–138), default status 200. -/
def createJsonResponse (data : JVal) (status : Nat := 200) : HttpResponse :=
  { status := status, body := some data }

/-- The serialized success envelope `{ jsonrpc, id, result }`:
`JSON.stringify` drops the `id` key when `requestId` is `undefined`. -/
def successEnvelope (requestId : Option JVal) (result : JVal) : JVal :=
  .obj ([("jsonrpc", .str "2.0")] ++
    (match requestId with | some v => [("id", v)] | none => []) ++
    [("result", result)])

/-- The catch-all error response (lines 549–555): HTTP 500, JSON-RPC error
object with code -32603 and the thrown message, and no `id` field. -/
def errorResponse (msg : String) : HttpResponse :=
  createJsonResponse
    (.obj [("jsonrpc", .str "2.0"),
           ("error", .obj [("code", .num (-32603)), ("message", .str msg)])])
    500

/-- Serialization of a tool result into the response JSON. -/
def callResultToJVal (r : CallResult) : JVal :=
  .obj ([("content", .arr (r.content.map fun c =>
           .obj [("type", .str c.ctype), ("text", .str c.text)]))] ++
    (match r.isError with | some b => [("isError", .bool b)] | none => []))

/-- The static `TOOLS` registry (lines 7–60), serialized. -/
def TOOLS : JVal :=
  .arr [
    .obj [("name", .str "getwiki"),
          ("description", .str "Access Casey's personal wiki at cag.wiki. Without a path, returns a list of all available pages. With a path, returns the text content of that page."),
          ("inputSchema", .obj [("type", .str "object"),
            ("properties", .obj [("path", .obj [("type", .str "string"),
              ("description", .str "Optional page path (e.g., 'about', 'projects/foo'). Omit to list all pages.")])])])],
    .obj [("name", .str "getblog"),
          ("description", .str "Access Casey's blog at caseyagollan.com. Without a slug, returns a list of recent posts. With a slug, returns the post content."),
          ("inputSchema", .obj [("type", .str "object"),
            ("properties", .obj [("slug", .obj [("type", .str "string"),
              ("description", .str "Optional post slug (e.g., 'my-post-title'). Omit to list recent posts.")])])])],
    .obj [("name", .str "getgithub"),
          ("description", .str "Access Casey's GitHub profile and repositories at github.com/caseyg. Without a repo name, returns profile info and repo list. With a repo name, returns that repo's details."),
          ("inputSchema", .obj [("type", .str "object"),
            ("properties", .obj [("repo", .obj [("type", .str "string"),
              ("description", .str "Optional repository name. Omit to get profile and repo list.")])])])],
    .obj [("name", .str "getmastodon"),
          ("description", .str "Access Casey's Mastodon posts at social.coop/@CaseyG. Returns recent posts."),
          ("inputSchema", .obj [("type", .str "object"),
            ("properties", .obj [("limit", .obj [("type", .str "number"),
              ("description", .str "Number of posts to return (default 10, max 40).")])])])]]

/-- The `tools/list` result `{ tools: TOOLS }`. -/
def toolsListResult : JVal := .obj [("tools", TOOLS)]

/-- The `initialize` result (lines 533–541). -/
def initializeResult : JVal :=
  .obj [("protocolVersion", .str "2024-11-05"),
        ("capabilities", .obj [("tools", .obj []), ("prompts", .obj []),
                               ("resources", .obj [])]),
        ("serverInfo", .obj [("name", .str "Casey's Public Info MCP"),
                             ("version", .str "1.0.0")])]

/-- Extract the string-typed arguments the handlers read
(after validation each of these properties is a string or absent). -/
def toStrArgs (args : Option JVal) : StrArgs :=
  { path := match optChain args "path" with | some (.str s) => some s | _ => none,
    slug := match optChain args "slug" with | some (.str s) => some s | _ => none,
    repo := match optChain args "repo" with | some (.str s) => some s | _ => none }

/-- Extract the numeric `limit` argument. -/
def toNumArgs (args : Option JVal) : NumArgs :=
  { limit := match optChain args "limit" with | some (.num n) => some n | _ => none }

/-- The `tools/call` branch (lines 496–530): a falsy `params?.name` throws
"Missing tool name"; the switch validates and runs the named tool, and its
default throws "Unknown tool: ...". -/
def callTool (o : Oracles) (requestId : Option JVal) (params : Option JVal) :
    Except String HttpResponse :=
  match optChain params "name" with
  | none => .error "Missing tool name"
  | some nv =>
    if jsTruthy nv then
      let args := optChain params "arguments"
      match nv with
      | .str s =>
        if s == "getwiki" then
          if isOptionalStringArg args then
            .ok (createJsonResponse (successEnvelope requestId
              (callResultToJVal (handleGetWiki o (toStrArgs args)))))
          else .error "Invalid arguments"
        else if s == "getblog" then
          if isOptionalStringArg args then
            .ok (createJsonResponse (successEnvelope requestId
              (callResultToJVal (handleGetBlog o (toStrArgs args)))))
          else .error "Invalid arguments"
        else if s == "getgithub" then
          if isOptionalStringArg args then
            .ok (createJsonResponse (successEnvelope requestId
              (callResultToJVal (handleGetGithub o (toStrArgs args)))))
          else .error "Invalid arguments"
        else if s == "getmastodon" then
          if isOptionalNumberArg args then
            .ok (createJsonResponse (successEnvelope requestId
              (callResultToJVal (handleGetMastodon o (toNumArgs args)))))
          else .error "Invalid arguments"
        else .error ("Unknown tool: " ++ s)
      | other => .error ("Unknown tool: " ++ jsString other)
    else .error "Missing tool name"

/-- The request id echoed into success envelopes. -/
def getId (body : JVal) : Option JVal := getField body "id"

/-- The `method` of a guard-validated body. -/
def getMethod (body : JVal) : String :=
  match getField body "method" with
  | some (.str s) => s
  | _ => ""

/-- The dispatcher on a parsed JSON body (lines 483–548): guard, then route by
method in source order; `Except.error` is a thrown exception. -/
def dispatch (o : Oracles) (body : JVal) : Except String HttpResponse :=
  if isMCPRequest body then
    let requestId := getId body
    let method := getMethod body
    if method == "tools/list" then
      .ok (createJsonResponse (successEnvelope requestId toolsListResult))
    else if method == "tools/call" then
      callTool o requestId (getField body "params")
    else if method == "initialize" then
      .ok (createJsonResponse (successEnvelope requestId initializeResult))
    else if method == "notifications/initialized" then
      .ok { status := 204, body := none }
    else .error ("Unknown method: " ++ method)
  else .error "Invalid MCP request"

/-- The body-handling part of `fetch` (lines 481–555): every exception thrown
during dispatch becomes the catch-all -32603 error response. -/
def handleBody (o : Oracles) (body : JVal) : HttpResponse :=
  match dispatch o body with
  | .ok r => r
  | .error msg => errorResponse msg

/-- A field of the (object) response body. -/
def respField (r : HttpResponse) (k : String) : Option JVal :=
  match r.body with
  | some (.obj fields) => fields.lookup k
  | _ => none

/-- The `error.code` of an error response body. -/
def respErrorCode (r : HttpResponse) : Option JVal :=
  match respField r "error" with
  | some (.obj fields) => fields.lookup "code"
  | _ => none

/-- A concrete oracle assignment used by the closed witness and
counterexample theorems (none of them depends on its values). -/
def sampleOracles : Oracles :=
  { wikiPage := fun _ => ⟨some "w", none⟩,
    wikiPages := ⟨some ["a", "b"], none⟩,
    blogPost := fun _ => ⟨some "p", none⟩,
    blogPosts := ⟨some [], none⟩,
    ghRepo := fun _ => ⟨none, none, some "Repository not found: x"⟩,
    ghProfile := ⟨none, none, some "Could not fetch GitHub profile"⟩,
    masto := fun _ => ⟨none, none, some "Could not find Mastodon account"⟩ }

/-- Branch classification of `handleGetWiki`: did the handler take a failure
branch (truthy `error` on the consulted fetch result)? -/
def wikiFailed (o : Oracles) (args : StrArgs) : Bool :=
  if oStrTruthy args.path then oStrTruthy (o.wikiPage (args.path.getD "")).error
  else oStrTruthy o.wikiPages.error

/-- Branch classification of `handleGetBlog` (see `wikiFailed`). -/
def blogFailed (o : Oracles) (args : StrArgs) : Bool :=
  if oStrTruthy args.slug then oStrTruthy (o.blogPost (args.slug.getD "")).error
  else oStrTruthy o.blogPosts.error

/-- Branch classification of `handleGetGithub` (see `wikiFailed`). -/
def ghFailed (o : Oracles) (args : StrArgs) : Bool :=
  if oStrTruthy args.repo then oStrTruthy (o.ghRepo (args.repo.getD "")).error
  else oStrTruthy o.ghProfile.error

/-- Branch classification of `handleGetMastodon` (see `wikiFailed`). -/
def mastoFailed (o : Oracles) (args : NumArgs) : Bool :=
  oStrTruthy (o.masto (mastoLimit args.limit)).error

/-! ## Scanner lemmas -/

theorem scanRepl_skip (m : List Char → Option (Nat × List Char)) :
    ∀ (s : List Char) (k : Nat), scanRepl m k s = scanRepl m 0 (s.drop k) := by
  intro s
  induction s with
  | nil => intro k; cases k <;> rfl
  | cons c cs ih =>
    intro k
    cases k with
    | zero => rfl
    | succ k => simpa [scanRepl] using ih k

theorem scanRepl_id_of_none (m : List Char → Option (Nat × List Char)) :
    ∀ s : List Char,
      (∀ c t, (∃ u, u ++ (c :: t) = s) → m (c :: t) = none) →
      scanRepl m 0 s = s := by
  intro s
  induction s with
  | nil => intro _; rfl
  | cons c cs ih =>
    intro h
    have hc : m (c :: cs) = none := h c cs ⟨[], rfl⟩
    have ht : scanRepl m 0 cs = cs := by
      refine ih ?_
      intro d t ⟨u, hu⟩
      exact h d t ⟨c :: u, by simp [hu]⟩
    simp [scanRepl, hc, ht]

theorem scanRepl_id_of_head (m : List Char → Option (Nat × List Char))
    (P : Char → Prop) (hm : ∀ c t, P c → m (c :: t) = none) :
    ∀ s : List Char, (∀ c ∈ s, P c) → scanRepl m 0 s = s := by
  intro s hs
  refine scanRepl_id_of_none m s ?_
  intro c t ⟨u, hu⟩
  refine hm c t (hs c ?_)
  rw [← hu]; simp

theorem scanRepl_append_of_head (m : List Char → Option (Nat × List Char))
    (P : Char → Prop) (hm : ∀ c t, P c → m (c :: t) = none) :
    ∀ (pre rest : List Char), (∀ c ∈ pre, P c) →
      scanRepl m 0 (pre ++ rest) = pre ++ scanRepl m 0 rest := by
  intro pre
  induction pre with
  | nil => intro rest _; rfl
  | cons c cs ih =>
    intro rest h
    have hc : m (c :: (cs ++ rest)) = none := hm _ _ (h c (by simp))
    have ht := ih rest (fun d hd => h d (by simp [hd]))
    simp [scanRepl, hc, ht]

theorem startsWithBy_self (eqc : Char → Char → Bool) :
    ∀ (p rest : List Char), (∀ c ∈ p, eqc c c = true) →
      startsWithBy eqc p (p ++ rest) = true := by
  intro p
  induction p with
  | nil => intro rest _; rfl
  | cons c cs ih =>
    intro rest h
    simp [startsWithBy, h c (by simp), ih rest (fun d hd => h d (by simp [hd]))]

theorem startsWithBy_append_of_le (eqc : Char → Char → Bool) :
    ∀ (p xs ys : List Char), p.length ≤ xs.length →
      startsWithBy eqc p (xs ++ ys) = startsWithBy eqc p xs := by
  intro p
  induction p with
  | nil => intro xs ys _; rfl
  | cons c cs ih =>
    intro xs ys hlen
    cases xs with
    | nil => simp at hlen
    | cons x xt =>
      simp only [List.cons_append, startsWithBy, List.append_eq]
      rw [ih xt ys (by simpa using hlen)]

theorem startsWithBy_drop (eqc : Char → Char → Bool) :
    ∀ (xs p ys : List Char), startsWithBy eqc p (xs ++ ys) = true →
      startsWithBy eqc (p.drop xs.length) ys = true := by
  intro xs
  induction xs with
  | nil => intro p ys h; simpa using h
  | cons x xt ih =>
    intro p ys h
    cases p with
    | nil => rfl
    | cons c cs =>
      simp only [List.cons_append, startsWithBy, Bool.and_eq_true] at h
      simpa using ih cs ys h.2

theorem findCloseCI_append (pat : List Char) (hne : pat ≠ [])
    (hid : ∀ c ∈ pat, ciEq c c = true)
    (hbord : ∀ k, k < pat.length → 0 < k →
      startsWithBy ciEq (pat.drop k) pat = false) :
    ∀ (body post : List Char), occursWith ciEq pat body = false →
      findCloseCI pat (body ++ (pat ++ post)) = some post := by
  intro body
  induction body with
  | nil =>
    intro post _
    cases hp : pat with
    | nil => exact absurd hp hne
    | cons c cs =>
      rw [← hp]
      simp only [List.nil_append]
      rw [hp, List.cons_append, findCloseCI, ← List.cons_append, ← hp,
        startsWithBy_self ciEq pat post hid]
      simp [List.drop_left]
  | cons c bs ih =>
    intro post hocc
    simp only [occursWith, Bool.or_eq_false_iff] at hocc
    have hsw : startsWithBy ciEq pat ((c :: bs) ++ (pat ++ post)) = false := by
      by_contra hcon
      have htrue : startsWithBy ciEq pat ((c :: bs) ++ (pat ++ post)) = true := by
        revert hcon; cases startsWithBy ciEq pat ((c :: bs) ++ (pat ++ post)) <;> simp
      rcases le_or_lt pat.length (c :: bs).length with hle | hlt
      · rw [startsWithBy_append_of_le ciEq pat (c :: bs) (pat ++ post) hle] at htrue
        rw [hocc.1] at htrue
        exact absurd htrue (by simp)
      · have hdrop := startsWithBy_drop ciEq (c :: bs) pat (pat ++ post) htrue
        have hlen2 : (pat.drop (c :: bs).length).length ≤ pat.length := by
          simp [List.length_drop]
        rw [startsWithBy_append_of_le ciEq _ pat post hlen2] at hdrop
        have hb := hbord (c :: bs).length hlt (by simp)
        rw [hb] at hdrop
        exact absurd hdrop (by simp)
    have hsw' : startsWithBy ciEq pat (c :: (bs ++ (pat ++ post))) = false := by
      simpa using hsw
    show findCloseCI pat (c :: (bs ++ (pat ++ post))) = some post
    simp only [findCloseCI, hsw']
    simpa using ih post hocc.2

theorem asciiLower_ne_lt (c : Char) (hc : ¬ c = '<') : ('<' == asciiLower c) = false := by
  unfold asciiLower
  split
  all_goals first
    | decide
    | exact beq_eq_false_iff_ne.mpr (fun h => hc h.symm)

theorem scanRepl_match (m : List Char → Option (Nat × List Char))
    (front rest rep : List Char) (hfront : front ≠ [])
    (hm : m (front ++ rest) = some (front.length, rep)) :
    scanRepl m 0 (front ++ rest) = rep ++ scanRepl m 0 rest := by
  cases front with
  | nil => exact absurd rfl hfront
  | cons c cs =>
    simp only [List.cons_append] at hm ⊢
    simp only [scanRepl, hm]
    rw [scanRepl_skip]
    congr 1
    simp [List.drop_left']

theorem mBlock_none_head (ops cl : List Char) (c : Char) (t : List Char)
    (hc : ¬ c = '<') : mBlock ('<' :: ops) cl (c :: t) = none := by
  unfold mBlock
  have hsw : startsWithBy ciEq ('<' :: ops) (c :: t) = false := by
    simp [startsWithBy, ciEq, asciiLower_ne_lt c hc]
  rw [hsw]
  simp

theorem mScript_fire (b post : List Char)
    (hb : occursWith ciEq scriptClose b = false) :
    mScript ((((scriptOpen ++ ['>']) ++ b) ++ scriptClose) ++ post) =
      some ((((scriptOpen ++ ['>']) ++ b) ++ scriptClose).length, []) := by
  have hsw : startsWithBy ciEq scriptOpen
      ((((scriptOpen ++ ['>']) ++ b) ++ scriptClose) ++ post) = true := by
    show startsWithBy ciEq scriptOpen
      (scriptOpen ++ ('>' :: ((b ++ scriptClose) ++ post))) = true
    exact startsWithBy_self ciEq scriptOpen _ (by decide)
  have h1 : (((((scriptOpen ++ ['>']) ++ b) ++ scriptClose) ++ post).drop
      scriptOpen.length) = '>' :: ((b ++ scriptClose) ++ post) := rfl
  have h2 : dropThroughGt ('>' :: ((b ++ scriptClose) ++ post)) =
      some ((b ++ scriptClose) ++ post) := by simp [dropThroughGt]
  have h3 : findCloseCI scriptClose ((b ++ scriptClose) ++ post) = some post := by
    rw [List.append_assoc]
    exact findCloseCI_append scriptClose (by decide) (by decide) (by decide) b post hb
  unfold mScript mBlock
  rw [hsw, if_pos rfl, h1, h2]
  simp only [h3]
  have hlen : ((((scriptOpen ++ ['>']) ++ b) ++ scriptClose) ++ post).length -
      post.length = (((scriptOpen ++ ['>']) ++ b) ++ scriptClose).length := by
    simp [List.length_append]
    omega
  simp only [hlen]

theorem scanRepl_mScript_block (lp b post : List Char)
    (hpre : ∀ c ∈ lp, ¬ c = '<')
    (hb : occursWith ciEq scriptClose b = false) :
    scanRepl mScript 0 (lp ++ ((((scriptOpen ++ ['>']) ++ b) ++ scriptClose) ++ post)) =
      scanRepl mScript 0 (lp ++ post) := by
  have hnone : ∀ c t, ¬ c = '<' → mScript (c :: t) = none := fun c t hc =>
    mBlock_none_head _ _ c t hc
  rw [scanRepl_append_of_head mScript (fun c => ¬ c = '<') hnone lp _ hpre,
    scanRepl_append_of_head mScript (fun c => ¬ c = '<') hnone lp post hpre]
  congr 1
  have hfront : (((scriptOpen ++ ['>']) ++ b) ++ scriptClose) ≠ [] := by
    intro h
    have := congrArg List.length h
    simp [List.length_append, scriptOpen, scriptClose] at this
  exact scanRepl_match mScript _ post [] hfront (mScript_fire b post hb)

theorem extractTextL_script (lp lb lq : List Char)
    (hpre : ∀ c ∈ lp, ¬ c = '<')
    (hb : occursWith ciEq scriptClose lb = false) :
    extractTextL (lp ++ ((((scriptOpen ++ ['>']) ++ lb) ++ scriptClose) ++ lq)) =
      extractTextL (lp ++ lq) := by
  unfold extractTextL
  rw [scanRepl_mScript_block lp lb lq hpre hb]

/-- Claim C5, counterexample: with a nested `<script>` inside the block, the
lazy close-tag search stops at the inner `</script>`, so the text `z` between
the inner and the outer close tag survives into the output: the input decomposes
as `pre ++ "<script>" ++ body ++ "</script>" ++ post` with `body`
`"x<script>y</script>z"`, yet `extractText` yields `"azb"`, which contains the
token `z` from inside the block. -/
theorem c5_counterexample :
    extractText "a<script>x<script>y</script>z</script>b" = "azb" ∧
    ("a<script>x<script>y</script>z</script>b" : String) =
      "a" ++ "<script>" ++ "x<script>y</script>z" ++ "</script>" ++ "b" ∧
    'z' ∈ ("azb" : String).data :=
  ⟨by decide, by decide, by decide⟩

/-- Claim C5, amended: for every input of the form
`pre ++ "<script>" ++ body ++ "</script>" ++ post` in which `pre` contains no
`'<'` and the body contains no (case-insensitive) occurrence of `</script>`,
the renderer removes the whole block before generic tag stripping: the output
equals that of the input with the block deleted, so no token from inside the
block appears.  (Bodies containing a nested `</script>` are excluded — the
counterexample shows content after an inner close tag leaks.) -/
theorem c5_script_block_removed (pre b post : String)
    (h1 : pre.data.all (fun c => !(c == '<')) = true)
    (h2 : occursWith ciEq scriptClose b.data = false) :
    extractText (pre ++ "<script>" ++ b ++ "</script>" ++ post) =
      extractText (pre ++ post) := by
  obtain ⟨lp⟩ := pre
  obtain ⟨lb⟩ := b
  obtain ⟨lq⟩ := post
  have hpre : ∀ c ∈ lp, ¬ c = '<' := by
    intro c hc
    have h := List.all_eq_true.mp h1 c hc
    simpa using h
  have d1 : ("<script>" : String).data = scriptOpen ++ ['>'] := by decide
  have d2 : ("</script>" : String).data = scriptClose := by decide
  have e : ((⟨lp⟩ : String) ++ "<script>" ++ (⟨lb⟩ : String) ++ "</script>" ++
      (⟨lq⟩ : String)).data =
      lp ++ ((((scriptOpen ++ ['>']) ++ lb) ++ scriptClose) ++ lq) := by
    show (((lp ++ ("<script>" : String).data) ++ lb) ++ ("</script>" : String).data) ++ lq = _
    rw [d1, d2]
    simp [List.append_assoc]
  have e2 : ((⟨lp⟩ : String) ++ (⟨lq⟩ : String)).data = lp ++ lq := rfl
  simp only [extractText]
  rw [e, e2]
  exact congrArg String.mk (extractTextL_script lp lb lq hpre h2)

/-- Claim C5, witness: the amended theorem applied at a concrete input. -/
theorem c5_witness :
    extractText ("note: " ++ "<script>" ++ "var x = 1; alert(x)" ++ "</script>" ++ " done") =
      extractText ("note: " ++ " done") :=
  c5_script_block_removed "note: " "var x = 1; alert(x)" " done" (by decide) (by decide)

/-! ## Lemmas for the idempotence of the renderer -/

theorem scanRepl_mem (m : List Char → Option (Nat × List Char)) (P : Char → Prop)
    (hrep : ∀ s len rep, m s = some (len, rep) → ∀ d ∈ rep, P d) :
    ∀ (s : List Char) (k : Nat), (∀ c ∈ s, P c) →
      ∀ c ∈ scanRepl m k s, P c := by
  intro s
  induction s with
  | nil => intro k _ c hc; simp [scanRepl] at hc
  | cons a cs ih =>
    intro k hs c hc
    cases k with
    | succ k =>
      exact ih k (fun d hd => hs d (by simp [hd])) c (by simpa [scanRepl] using hc)
    | zero =>
      cases hm : m (a :: cs) with
      | some pr =>
        simp only [scanRepl, hm] at hc
        rcases List.mem_append.mp hc with h | h
        · exact hrep (a :: cs) pr.1 pr.2 (by simpa using hm) c h
        · exact ih (pr.1 - 1) (fun d hd => hs d (by simp [hd])) c h
      | none =>
        simp only [scanRepl, hm] at hc
        rcases List.mem_cons.mp hc with h | h
        · exact h ▸ hs a (by simp)
        · exact ih 0 (fun d hd => hs d (by simp [hd])) c h

theorem scanRepl_mem_strong (m : List Char → Option (Nat × List Char)) (P : Char → Prop)
    (hrep : ∀ s len rep, m s = some (len, rep) → ∀ d ∈ rep, P d)
    (hfail : ∀ c t, m (c :: t) = none → P c) :
    ∀ (s : List Char) (k : Nat), ∀ c ∈ scanRepl m k s, P c := by
  intro s
  induction s with
  | nil => intro k c hc; simp [scanRepl] at hc
  | cons a cs ih =>
    intro k c hc
    cases k with
    | succ k => exact ih k c (by simpa [scanRepl] using hc)
    | zero =>
      cases hm : m (a :: cs) with
      | some pr =>
        simp only [scanRepl, hm] at hc
        rcases List.mem_append.mp hc with h | h
        · exact hrep (a :: cs) pr.1 pr.2 (by simpa using hm) c h
        · exact ih (pr.1 - 1) c h
      | none =>
        simp only [scanRepl, hm] at hc
        rcases List.mem_cons.mp hc with h | h
        · exact h ▸ hfail a cs hm
        · exact ih 0 c h

theorem startsWithBy_extend (eqc : Char → Char → Bool) :
    ∀ (pat s t : List Char), startsWithBy eqc pat s = true →
      startsWithBy eqc pat (s ++ t) = true := by
  intro pat
  induction pat with
  | nil => intro s t _; rfl
  | cons p ps ih =>
    intro s t h
    cases s with
    | nil => simp [startsWithBy] at h
    | cons a as =>
      simp only [startsWithBy, Bool.and_eq_true] at h ⊢
      exact ⟨h.1, ih as t h.2⟩

theorem occursWith_append_left (eqc : Char → Char → Bool) (pat : List Char) :
    ∀ (s t : List Char), occursWith eqc pat s = true →
      occursWith eqc pat (s ++ t) = true := by
  intro s
  induction s with
  | nil => intro t h; simp [occursWith] at h
  | cons a as ih =>
    intro t h
    simp only [occursWith, Bool.or_eq_true] at h ⊢
    rcases h with h | h
    · exact Or.inl (by simpa using startsWithBy_extend eqc pat (a :: as) t h)
    · exact Or.inr (ih t h)

theorem occursWith_append_right (eqc : Char → Char → Bool) (pat : List Char) :
    ∀ (u s : List Char), occursWith eqc pat s = true →
      occursWith eqc pat (u ++ s) = true := by
  intro u
  induction u with
  | nil => intro s h; simpa using h
  | cons a as ih =>
    intro s h
    simp only [List.cons_append, occursWith, Bool.or_eq_true]
    exact Or.inr (ih s h)

theorem occursWith_of_drop (eqc : Char → Char → Bool) (pat : List Char)
    (s : List Char) (k : Nat) (h : occursWith eqc pat (s.drop k) = true) :
    occursWith eqc pat s = true := by
  have := occursWith_append_right eqc pat (s.take k) (s.drop k) h
  simpa [List.take_append_drop] using this

theorem occursWith_false_sw (eqc : Char → Char → Bool) (pat : List Char) :
    ∀ s, occursWith eqc pat s = false →
      ∀ c t, (∃ u, u ++ (c :: t) = s) → startsWithBy eqc pat (c :: t) = false := by
  intro s
  induction s with
  | nil => intro _ c t ⟨u, hu⟩; exact absurd hu (by simp)
  | cons a as ih =>
    intro h c t ⟨u, hu⟩
    simp only [occursWith, Bool.or_eq_false_iff] at h
    cases u with
    | nil =>
      simp only [List.nil_append] at hu
      rw [hu]
      exact h.1
    | cons b bs =>
      simp only [List.cons_append, List.cons.injEq] at hu
      exact ih h.2 c t ⟨bs, hu.2⟩

theorem dropWhile_app (p : Char → Bool) :
    ∀ l : List Char, ∃ u, u ++ l.dropWhile p = l := by
  intro l
  induction l with
  | nil => exact ⟨[], rfl⟩
  | cons a as ih =>
    by_cases hp : p a
    · obtain ⟨u, hu⟩ := ih
      exact ⟨a :: u, by simp [List.dropWhile_cons, hp, hu]⟩
    · exact ⟨[], by simp [List.dropWhile_cons, hp]⟩

theorem dropWhile_head_not (p : Char → Bool) :
    ∀ (l : List Char) (c : Char) (t : List Char),
      l.dropWhile p = c :: t → p c = false := by
  intro l
  induction l with
  | nil => intro c t h; simp [List.dropWhile] at h
  | cons a as ih =>
    intro c t h
    by_cases hp : p a
    · exact ih c t (by simpa [List.dropWhile_cons, hp] using h)
    · have h' : a :: as = c :: t := by simpa [List.dropWhile_cons, hp] using h
      cases h'
      simpa using hp

theorem dropWhile_dw (p : Char → Bool) (l : List Char) :
    (l.dropWhile p).dropWhile p = l.dropWhile p := by
  cases hd : l.dropWhile p with
  | nil => rfl
  | cons c t =>
    have := dropWhile_head_not p l c t hd
    simp [List.dropWhile_cons, this]

theorem mem_dropWhile (p : Char → Bool) :
    ∀ (l : List Char) (c : Char), c ∈ l.dropWhile p → c ∈ l := by
  intro l
  induction l with
  | nil => intro c hc; simp at hc
  | cons a as ih =>
    intro c hc
    by_cases hp : p a
    · exact List.mem_cons_of_mem a (ih c (by simpa [List.dropWhile_cons, hp] using hc))
    · rw [List.dropWhile_cons, if_neg (by simpa using hp)] at hc
      exact hc

theorem mem_jsTrim (s : List Char) (c : Char) (hc : c ∈ jsTrim s) : c ∈ s := by
  unfold jsTrim at hc
  rw [List.mem_reverse] at hc
  have h1 := mem_dropWhile wsJS (s.dropWhile wsJS).reverse c hc
  rw [List.mem_reverse] at h1
  exact mem_dropWhile wsJS s c h1

theorem occursWith_jsTrim (eqc : Char → Char → Bool) (pat s : List Char)
    (h : occursWith eqc pat (jsTrim s) = true) : occursWith eqc pat s = true := by
  unfold jsTrim at h
  obtain ⟨u, hu⟩ := dropWhile_app wsJS (s.dropWhile wsJS).reverse
  have ha : s.dropWhile wsJS =
      ((s.dropWhile wsJS).reverse.dropWhile wsJS).reverse ++ u.reverse := by
    have := congrArg List.reverse hu
    simpa [List.reverse_append] using this.symm
  have h2 : occursWith eqc pat (s.dropWhile wsJS) = true := by
    rw [ha]
    exact occursWith_append_left eqc pat _ u.reverse h
  obtain ⟨v, hv⟩ := dropWhile_app wsJS s
  rw [← hv]
  exact occursWith_append_right eqc pat v _ h2

theorem mLitCI_none_head (ps rep : List Char) (c : Char) (t : List Char)
    (hc : ¬ c = '<') : mLitCI ('<' :: ps) rep (c :: t) = none := by
  unfold mLitCI
  have hsw : startsWithBy ciEq ('<' :: ps) (c :: t) = false := by
    simp [startsWithBy, ciEq, asciiLower_ne_lt c hc]
  rw [hsw]
  simp

theorem mLit_none_head (ps rep : List Char) (c : Char) (t : List Char)
    (hc : ¬ c = '&') : mLit ('&' :: ps) rep (c :: t) = none := by
  unfold mLit
  have hsw : startsWithBy csEq ('&' :: ps) (c :: t) = false := by
    simp [startsWithBy, csEq, beq_eq_false_iff_ne.mpr (fun h => hc h.symm)]
  rw [hsw]
  simp

theorem mBr_none_head (c : Char) (t : List Char) (hc : ¬ c = '<') :
    mBr (c :: t) = none := by
  unfold mBr
  have hsw : startsWithBy ciEq brOpen (c :: t) = false := by
    simp [brOpen, startsWithBy, ciEq, asciiLower_ne_lt c hc]
  rw [hsw]
  simp

theorem mH_none_head (c : Char) (t : List Char) (hc : ¬ c = '<') :
    mH (c :: t) = none := by
  unfold mH
  split <;> simp_all

theorem mTag_none_head (c : Char) (t : List Char) (hc : ¬ c = '<') :
    mTag (c :: t) = none := by
  unfold mTag
  split <;> simp_all

theorem mNl3_none_head (c : Char) (t : List Char) (hc : ¬ c = '\n') :
    mNl3 (c :: t) = none := by
  unfold mNl3
  have hsw : startsWithBy csEq nl3 (c :: t) = false := by
    simp [nl3, startsWithBy, csEq, beq_eq_false_iff_ne.mpr (fun h => hc h.symm)]
  rw [hsw]
  simp

theorem mSpTab_none_head (c : Char) (t : List Char)
    (hc : ¬ c = ' ') (hc2 : ¬ c = '\t') : mSpTab (c :: t) = none := by
  unfold mSpTab
  simp [beq_iff_eq, hc, hc2]

theorem extractTextL_plain (l : List Char)
    (h : ∀ c ∈ l, ¬ c = '<' ∧ ¬ c = '&') :
    extractTextL l = jsTrim (scanRepl mSpTab 0 (scanRepl mNl3 0 l)) := by
  have hlt : ∀ c ∈ l, ¬ c = '<' := fun c hc => (h c hc).1
  have hamp : ∀ c ∈ l, ¬ c = '&' := fun c hc => (h c hc).2
  have P := fun (c : Char) => ¬ c = '<'
  have e1 : scanRepl mScript 0 l = l :=
    scanRepl_id_of_head _ (fun c => ¬ c = '<')
      (fun c t hc => mBlock_none_head _ _ c t hc) l hlt
  have e2 : scanRepl mStyle 0 l = l :=
    scanRepl_id_of_head _ (fun c => ¬ c = '<')
      (fun c t hc => mBlock_none_head _ _ c t hc) l hlt
  have e3 : scanRepl mBr 0 l = l :=
    scanRepl_id_of_head _ (fun c => ¬ c = '<')
      (fun c t hc => mBr_none_head c t hc) l hlt
  have e4 : scanRepl (mLitCI pClose ['\n', '\n']) 0 l = l :=
    scanRepl_id_of_head _ (fun c => ¬ c = '<')
      (fun c t hc => mLitCI_none_head _ _ c t hc) l hlt
  have e5 : scanRepl (mLitCI divClose ['\n']) 0 l = l :=
    scanRepl_id_of_head _ (fun c => ¬ c = '<')
      (fun c t hc => mLitCI_none_head _ _ c t hc) l hlt
  have e6 : scanRepl mH 0 l = l :=
    scanRepl_id_of_head _ (fun c => ¬ c = '<')
      (fun c t hc => mH_none_head c t hc) l hlt
  have e7 : scanRepl (mLitCI liOpen ['\u2022', ' ']) 0 l = l :=
    scanRepl_id_of_head _ (fun c => ¬ c = '<')
      (fun c t hc => mLitCI_none_head _ _ c t hc) l hlt
  have e8 : scanRepl (mLitCI liClose ['\n']) 0 l = l :=
    scanRepl_id_of_head _ (fun c => ¬ c = '<')
      (fun c t hc => mLitCI_none_head _ _ c t hc) l hlt
  have e9 : scanRepl mTag 0 l = l :=
    scanRepl_id_of_head _ (fun c => ¬ c = '<')
      (fun c t hc => mTag_none_head c t hc) l hlt
  have f1 : scanRepl (mLit ['&', 'n', 'b', 's', 'p', ';'] [' ']) 0 l = l :=
    scanRepl_id_of_head _ (fun c => ¬ c = '&')
      (fun c t hc => mLit_none_head _ _ c t hc) l hamp
  have f2 : scanRepl (mLit ['&', 'a', 'm', 'p', ';'] ['&']) 0 l = l :=
    scanRepl_id_of_head _ (fun c => ¬ c = '&')
      (fun c t hc => mLit_none_head _ _ c t hc) l hamp
  have f3 : scanRepl (mLit ['&', 'l', 't', ';'] ['<']) 0 l = l :=
    scanRepl_id_of_head _ (fun c => ¬ c = '&')
      (fun c t hc => mLit_none_head _ _ c t hc) l hamp
  have f4 : scanRepl (mLit ['&', 'g', 't', ';'] ['>']) 0 l = l :=
    scanRepl_id_of_head _ (fun c => ¬ c = '&')
      (fun c t hc => mLit_none_head _ _ c t hc) l hamp
  have f5 : scanRepl (mLit ['&', 'q', 'u', 'o', 't', ';'] ['"']) 0 l = l :=
    scanRepl_id_of_head _ (fun c => ¬ c = '&')
      (fun c t hc => mLit_none_head _ _ c t hc) l hamp
  have f6 : scanRepl (mLit ['&', '#', '3', '9', ';'] ['\'']) 0 l = l :=
    scanRepl_id_of_head _ (fun c => ¬ c = '&')
      (fun c t hc => mLit_none_head _ _ c t hc) l hamp
  simp only [extractTextL, afterScripts]
  rw [e1, e2, e3, e4, e5, e6, e7, e8, e9, f1, f2, f3, f4, f5, f6]

theorem beq_comm_false (a b : Char) (h : (a == b) = false) : (b == a) = false :=
  beq_eq_false_iff_ne.mpr (Ne.symm (beq_eq_false_iff_ne.mp h))

theorem countWhile_drop_head (p : Char → Bool) :
    ∀ s : List Char, s.drop (countWhile p s) = [] ∨
      ∃ d t, s.drop (countWhile p s) = d :: t ∧ p d = false := by
  intro s
  induction s with
  | nil => exact Or.inl rfl
  | cons c cs ih =>
    by_cases hp : p c
    · have : countWhile p (c :: cs) = countWhile p cs + 1 := by simp [countWhile, hp]
      rw [this]
      simpa using ih
    · have : countWhile p (c :: cs) = 0 := by simp [countWhile, hp]
      rw [this]
      exact Or.inr ⟨c, cs, rfl, by simpa using hp⟩

theorem sw_nl1_false (z : List Char) (hz : countWhile (· == '\n') z = 0) :
    startsWithBy csEq ['\n'] z = false := by
  cases z with
  | nil => rfl
  | cons d t =>
    have hd : (d == '\n') = false := by
      by_cases h : (d == '\n') = true
      · simp [countWhile, h] at hz
      · simpa using h
    simp [startsWithBy, csEq, beq_comm_false d '\n' hd]

theorem sw_nl2_false (z : List Char) (hz : countWhile (· == '\n') z ≤ 1) :
    startsWithBy csEq ['\n', '\n'] z = false := by
  cases z with
  | nil => rfl
  | cons d t =>
    by_cases hd : (d == '\n') = true
    · have ht : countWhile (· == '\n') t = 0 := by
        have : countWhile (· == '\n') (d :: t) = countWhile (· == '\n') t + 1 := by
          simp [countWhile, hd]
        omega
      simp [startsWithBy, csEq, sw_nl1_false t ht]
    · have : (d == '\n') = false := by simpa using hd
      simp [startsWithBy, csEq, beq_comm_false d '\n' this]

theorem sw_nl3_count (s : List Char) (h : startsWithBy csEq nl3 s = true) :
    3 ≤ countWhile (· == '\n') s := by
  cases s with
  | nil => simp [nl3, startsWithBy] at h
  | cons a t1 =>
    cases t1 with
    | nil => simp [nl3, startsWithBy] at h
    | cons b t2 =>
      cases t2 with
      | nil => simp [nl3, startsWithBy] at h
      | cons c t3 =>
        simp only [nl3, startsWithBy, csEq, Bool.and_eq_true, beq_iff_eq] at h
        obtain ⟨ha, hb, hc, -⟩ := h
        subst ha; subst hb; subst hc
        simp [countWhile]

theorem count_nl_le1 (z : List Char)
    (h : startsWithBy csEq ['\n', '\n'] z = false) :
    countWhile (· == '\n') z ≤ 1 := by
  cases z with
  | nil => simp [countWhile]
  | cons d t =>
    by_cases hd : (d == '\n') = true
    · have ht : countWhile (· == '\n') t = 0 := by
        cases t with
        | nil => rfl
        | cons e t' =>
          have hde : d = '\n' := by simpa using hd
          subst hde
          have he : ('\n' == e) = false := by simpa [startsWithBy, csEq] using h
          simp [countWhile, beq_comm_false '\n' e he]
      simp [countWhile, hd, ht]
    · have : (d == '\n') = false := by simpa using hd
      simp [countWhile, this]

theorem cn_props : ∀ (n : Nat) (s : List Char), s.length ≤ n →
    occursWith csEq nl3 (scanRepl mNl3 0 s) = false ∧
    countWhile (· == '\n') (scanRepl mNl3 0 s) =
      min (countWhile (· == '\n') s) 2 := by
  intro n
  induction n with
  | zero =>
    intro s hs
    have : s = [] := List.length_eq_zero.mp (Nat.le_zero.mp hs)
    subst this
    simp [scanRepl, occursWith, countWhile]
  | succ n ih =>
    intro s hs
    cases s with
    | nil => simp [scanRepl, occursWith, countWhile]
    | cons c cs =>
      have hcs : cs.length ≤ n := by
        simp only [List.length_cons] at hs
        omega
      by_cases hsw : startsWithBy csEq nl3 (c :: cs) = true
      · have hc : c = '\n' := by
          cases cs with
          | nil => simp [nl3, startsWithBy] at hsw
          | cons b t =>
            simp only [nl3, startsWithBy, csEq, Bool.and_eq_true, beq_iff_eq] at hsw
            exact hsw.1.symm
        subst hc
        have hm : mNl3 ('\n' :: cs) =
            some (countWhile (· == '\n') ('\n' :: cs), ['\n', '\n']) := by
          unfold mNl3
          rw [hsw, if_pos rfl]
        have hL : countWhile (· == '\n') ('\n' :: cs) =
            countWhile (· == '\n') cs + 1 := by simp [countWhile]
        have hwlen : (cs.drop (countWhile (· == '\n') cs)).length ≤ n := by
          simp only [List.length_drop]
          omega
        have ihw := ih (cs.drop (countWhile (· == '\n') cs)) hwlen
        have hw0 : countWhile (· == '\n') (cs.drop (countWhile (· == '\n') cs)) = 0 := by
          rcases countWhile_drop_head (· == '\n') cs with h0 | ⟨d, t, hdt, hdf⟩
          · rw [h0]; rfl
          · rw [hdt]; simp [countWhile, hdf]
        have hz0 : countWhile (· == '\n')
            (scanRepl mNl3 0 (cs.drop (countWhile (· == '\n') cs))) = 0 := by
          rw [ihw.2, hw0]
          rfl
        have hout : scanRepl mNl3 0 ('\n' :: cs) =
            '\n' :: '\n' :: scanRepl mNl3 0 (cs.drop (countWhile (· == '\n') cs)) := by
          simp only [scanRepl, hm]
          rw [scanRepl_skip, hL]
          simp
        constructor
        · rw [hout]
          simp only [occursWith]
          have g1 : startsWithBy csEq nl3 ('\n' :: '\n' ::
              scanRepl mNl3 0 (cs.drop (countWhile (· == '\n') cs))) = false := by
            have := sw_nl1_false _ hz0
            simp [nl3, startsWithBy, csEq, this]
          have g2 : startsWithBy csEq nl3 ('\n' ::
              scanRepl mNl3 0 (cs.drop (countWhile (· == '\n') cs))) = false := by
            have := sw_nl2_false
              (scanRepl mNl3 0 (cs.drop (countWhile (· == '\n') cs))) (by omega)
            simp [nl3, startsWithBy, csEq, this]
          simp [g1, g2, ihw.1]
        · rw [hout]
          have hL3 : 3 ≤ countWhile (· == '\n') ('\n' :: cs) := sw_nl3_count _ hsw
          have hlhs : countWhile (· == '\n') ('\n' :: '\n' ::
              scanRepl mNl3 0 (cs.drop (countWhile (· == '\n') cs))) = 2 := by
            simp [countWhile, hz0]
          rw [hlhs]
          omega
      · have hswf : startsWithBy csEq nl3 (c :: cs) = false := by
          revert hsw
          cases startsWithBy csEq nl3 (c :: cs) <;> simp
        have hm : mNl3 (c :: cs) = none := by
          unfold mNl3
          rw [hswf]
          simp
        have ihcs := ih cs hcs
        have hout : scanRepl mNl3 0 (c :: cs) = c :: scanRepl mNl3 0 cs := by
          simp [scanRepl, hm]
        by_cases hc : c = '\n'
        · subst hc
          have hcs1 : countWhile (· == '\n') cs ≤ 1 := by
            apply count_nl_le1
            simpa [nl3, startsWithBy, csEq] using hswf
          constructor
          · rw [hout]
            simp only [occursWith]
            have g1 : startsWithBy csEq nl3 ('\n' :: scanRepl mNl3 0 cs) = false := by
              have hcnt : countWhile (· == '\n') (scanRepl mNl3 0 cs) ≤ 1 := by
                rw [ihcs.2]
                omega
              have := sw_nl2_false _ hcnt
              simp [nl3, startsWithBy, csEq, this]
            simp [g1, ihcs.1]
          · rw [hout]
            have hstep : countWhile (· == '\n') ('\n' :: scanRepl mNl3 0 cs) =
                countWhile (· == '\n') (scanRepl mNl3 0 cs) + 1 := by
              simp [countWhile]
            have hL2 : countWhile (· == '\n') ('\n' :: cs) =
                countWhile (· == '\n') cs + 1 := by
              simp [countWhile]
            rw [hstep, ihcs.2, hL2]
            omega
        · constructor
          · rw [hout]
            simp only [occursWith]
            have hnc : ('\n' == c) = false := beq_eq_false_iff_ne.mpr (fun h => hc h.symm)
            have g1 : startsWithBy csEq nl3 (c :: scanRepl mNl3 0 cs) = false := by
              simp [nl3, startsWithBy, csEq, hnc]
            simp [g1, ihcs.1]
          · rw [hout]
            have hcn : (c == '\n') = false := beq_eq_false_iff_ne.mpr hc
            simp [countWhile, hcn]

theorem csL_nl_count : ∀ s : List Char,
    countWhile (· == '\n') (scanRepl mSpTab 0 s) = countWhile (· == '\n') s := by
  intro s
  induction s with
  | nil => rfl
  | cons c cs ih =>
    by_cases hsp : (c == ' ' || c == '\t') = true
    · have hm : mSpTab (c :: cs) =
          some (countWhile (fun c => c == ' ' || c == '\t') (c :: cs), [' ']) := by
        unfold mSpTab
        simp [hsp]
      have hcnl : (c == '\n') = false := by
        have hor : c = ' ' ∨ c = '\t' := by simpa using hsp
        rcases hor with h | h <;> (subst h; decide)
      simp only [scanRepl, hm]
      simp [countWhile, hcnl]
    · have hm : mSpTab (c :: cs) = none := by
        unfold mSpTab
        simp [hsp]
      simp only [scanRepl, hm]
      by_cases hc : (c == '\n') = true
      · simp [countWhile, hc, ih]
      · have : (c == '\n') = false := by simpa using hc
        simp [countWhile, this]

theorem cs_no_nl3 : ∀ (n : Nat) (z : List Char), z.length ≤ n →
    occursWith csEq nl3 z = false →
    occursWith csEq nl3 (scanRepl mSpTab 0 z) = false := by
  intro n
  induction n with
  | zero =>
    intro z hz _
    have : z = [] := List.length_eq_zero.mp (Nat.le_zero.mp hz)
    subst this
    simp [scanRepl, occursWith]
  | succ n ih =>
    intro z hz hocc
    cases z with
    | nil => simp [scanRepl, occursWith]
    | cons c cs =>
      simp only [occursWith, Bool.or_eq_false_iff] at hocc
      have hcs : cs.length ≤ n := by
        simp only [List.length_cons] at hz
        omega
      by_cases hsp : (c == ' ' || c == '\t') = true
      · have hm : mSpTab (c :: cs) =
            some (countWhile (fun c => c == ' ' || c == '\t') (c :: cs), [' ']) := by
          unfold mSpTab
          simp [hsp]
        have hk : countWhile (fun c => c == ' ' || c == '\t') (c :: cs) =
            countWhile (fun c => c == ' ' || c == '\t') cs + 1 := by
          simp [countWhile, hsp]
        have hout : scanRepl mSpTab 0 (c :: cs) = ' ' ::
            scanRepl mSpTab 0 (cs.drop (countWhile (fun c => c == ' ' || c == '\t') cs)) := by
          simp only [scanRepl, hm]
          rw [scanRepl_skip, hk]
          simp
        rw [hout]
        simp only [occursWith]
        have hwocc : occursWith csEq nl3
            (cs.drop (countWhile (fun c => c == ' ' || c == '\t') cs)) = false := by
          by_contra hcon
          have htr : occursWith csEq nl3
              (cs.drop (countWhile (fun c => c == ' ' || c == '\t') cs)) = true := by
            revert hcon
            cases occursWith csEq nl3
              (cs.drop (countWhile (fun c => c == ' ' || c == '\t') cs)) <;> simp
          have := occursWith_of_drop csEq nl3 cs _ htr
          rw [hocc.2] at this
          exact absurd this (by simp)
        have hwlen : (cs.drop (countWhile (fun c => c == ' ' || c == '\t') cs)).length ≤ n := by
          simp only [List.length_drop]
          omega
        have hrec := ih _ hwlen hwocc
        have g1 : startsWithBy csEq nl3 (' ' ::
            scanRepl mSpTab 0 (cs.drop (countWhile (fun c => c == ' ' || c == '\t') cs))) =
            false := by
          simp [nl3, startsWithBy, csEq]
        simp [g1, hrec]
      · have hm : mSpTab (c :: cs) = none := by
          unfold mSpTab
          simp [hsp]
        have hout : scanRepl mSpTab 0 (c :: cs) = c :: scanRepl mSpTab 0 cs := by
          simp [scanRepl, hm]
        rw [hout]
        simp only [occursWith]
        have ihcs := ih cs hcs hocc.2
        by_cases hc : c = '\n'
        · subst hc
          have hsw2 : startsWithBy csEq ['\n', '\n'] cs = false := by
            simpa [nl3, startsWithBy, csEq] using hocc.1
          have hle : countWhile (· == '\n') (scanRepl mSpTab 0 cs) ≤ 1 := by
            rw [csL_nl_count]
            exact count_nl_le1 cs hsw2
          have hg := sw_nl2_false (scanRepl mSpTab 0 cs) hle
          have g1 : startsWithBy csEq nl3 ('\n' :: scanRepl mSpTab 0 cs) = false := by
            simp [nl3, startsWithBy, csEq, hg]
          simp [g1, ihcs]
        · have hnc : ('\n' == c) = false := beq_eq_false_iff_ne.mpr (fun h => hc h.symm)
          have g1 : startsWithBy csEq nl3 (c :: scanRepl mSpTab 0 cs) = false := by
            simp [nl3, startsWithBy, csEq, hnc]
          simp [g1, ihcs]

theorem cs_no_sp2 : ∀ (n : Nat) (z : List Char), z.length ≤ n →
    occursWith csEq sp2 (scanRepl mSpTab 0 z) = false := by
  intro n
  induction n with
  | zero =>
    intro z hz
    have : z = [] := List.length_eq_zero.mp (Nat.le_zero.mp hz)
    subst this
    simp [scanRepl, occursWith]
  | succ n ih =>
    intro z hz
    cases z with
    | nil => simp [scanRepl, occursWith]
    | cons c cs =>
      have hcs : cs.length ≤ n := by
        simp only [List.length_cons] at hz
        omega
      by_cases hsp : (c == ' ' || c == '\t') = true
      · have hm : mSpTab (c :: cs) =
            some (countWhile (fun c => c == ' ' || c == '\t') (c :: cs), [' ']) := by
          unfold mSpTab
          simp [hsp]
        have hk : countWhile (fun c => c == ' ' || c == '\t') (c :: cs) =
            countWhile (fun c => c == ' ' || c == '\t') cs + 1 := by
          simp [countWhile, hsp]
        have hout : scanRepl mSpTab 0 (c :: cs) = ' ' ::
            scanRepl mSpTab 0 (cs.drop (countWhile (fun c => c == ' ' || c == '\t') cs)) := by
          simp only [scanRepl, hm]
          rw [scanRepl_skip, hk]
          simp
        rw [hout]
        simp only [occursWith]
        have hwlen : (cs.drop (countWhile (fun c => c == ' ' || c == '\t') cs)).length ≤ n := by
          simp only [List.length_drop]
          omega
        have ihw := ih _ hwlen
        have hswtail : startsWithBy csEq [' ']
            (scanRepl mSpTab 0 (cs.drop (countWhile (fun c => c == ' ' || c == '\t') cs))) =
            false := by
          rcases countWhile_drop_head (fun c => c == ' ' || c == '\t') cs with h0 | ⟨d, t, hdt, hdf⟩
          · rw [h0]
            rfl
          · rw [hdt]
            have hds : (d == ' ') = false := (Bool.or_eq_false_iff.mp hdf).1
            have hdt2 : (d == '\t') = false := (Bool.or_eq_false_iff.mp hdf).2
            have hmd : mSpTab (d :: t) = none := by
              unfold mSpTab
              simp [hds, hdt2]
            simp [scanRepl, hmd, startsWithBy, csEq, beq_comm_false d ' ' hds]
        have g1 : startsWithBy csEq sp2 (' ' ::
            scanRepl mSpTab 0 (cs.drop (countWhile (fun c => c == ' ' || c == '\t') cs))) =
            false := by
          simp [sp2, startsWithBy, csEq, hswtail]
        simp [g1, ihw]
      · have hf : (c == ' ' || c == '\t') = false := by simpa using hsp
        have hm : mSpTab (c :: cs) = none := by
          unfold mSpTab
          simp [hf]
        have hout : scanRepl mSpTab 0 (c :: cs) = c :: scanRepl mSpTab 0 cs := by
          simp [scanRepl, hm]
        rw [hout]
        simp only [occursWith]
        have h1 := (Bool.or_eq_false_iff.mp hf).1
        have g1 : startsWithBy csEq sp2 (c :: scanRepl mSpTab 0 cs) = false := by
          simp [sp2, startsWithBy, csEq, beq_comm_false c ' ' h1]
        simp [g1, ih cs hcs]

theorem cs_no_tab (z : List Char) : ∀ c ∈ scanRepl mSpTab 0 z, ¬ c = '\t' := by
  intro c hc
  refine scanRepl_mem_strong mSpTab (fun c => ¬ c = '\t') ?_ ?_ z 0 c hc
  · intro s len rep hm d hd
    cases s with
    | nil => simp [mSpTab] at hm
    | cons a t =>
      by_cases h : (a == ' ' || a == '\t') = true
      · unfold mSpTab at hm
        simp only [h, if_true] at hm
        have hrep : rep = [' '] := by
          cases hm
          rfl
        subst hrep
        have : d = ' ' := by simpa using hd
        subst this
        decide
      · unfold mSpTab at hm
        simp [h] at hm
  · intro a t hm
    unfold mSpTab at hm
    by_cases h : (a == ' ' || a == '\t') = true
    · simp [h] at hm
    · have hf : (a == ' ' || a == '\t') = false := by simpa using h
      have := (Bool.or_eq_false_iff.mp hf).2
      intro he
      subst he
      simp at this

theorem csL_id : ∀ s : List Char, (∀ c ∈ s, ¬ c = '\t') →
    occursWith csEq sp2 s = false → scanRepl mSpTab 0 s = s := by
  intro s
  induction s with
  | nil => intro _ _; rfl
  | cons c cs ih =>
    intro htab hsp2
    simp only [occursWith, Bool.or_eq_false_iff] at hsp2
    have ihcs := ih (fun d hd => htab d (by simp [hd])) hsp2.2
    by_cases hc : c = ' '
    · subst hc
      have hcs0 : countWhile (fun c => c == ' ' || c == '\t') cs = 0 := by
        cases cs with
        | nil => rfl
        | cons d t =>
          have hd1 : (' ' == d) = false := by
            simpa [sp2, startsWithBy, csEq] using hsp2.1
          have hd2 : (d == ' ') = false := beq_comm_false ' ' d hd1
          have hd3 : (d == '\t') = false := by
            have := htab d (by simp)
            exact beq_eq_false_iff_ne.mpr this
          simp [countWhile, hd2, hd3]
      have hm : mSpTab (' ' :: cs) = some (1, [' ']) := by
        unfold mSpTab
        simp [countWhile, hcs0]
      simp only [scanRepl, hm]
      simp [ihcs]
    · have ht : ¬ c = '\t' := htab c (by simp)
      have hm : mSpTab (c :: cs) = none := mSpTab_none_head c cs hc ht
      simp [scanRepl, hm, ihcs]

theorem cn_id (s : List Char) (h : occursWith csEq nl3 s = false) :
    scanRepl mNl3 0 s = s := by
  refine scanRepl_id_of_none mNl3 s ?_
  intro c t hsuf
  have hsw := occursWith_false_sw csEq nl3 s h c t hsuf
  unfold mNl3
  rw [hsw]
  simp

theorem jsTrim_idem (s : List Char) : jsTrim (jsTrim s) = jsTrim s := by
  unfold jsTrim
  obtain ⟨u, hu⟩ := dropWhile_app wsJS (s.dropWhile wsJS).reverse
  have ha : s.dropWhile wsJS =
      ((s.dropWhile wsJS).reverse.dropWhile wsJS).reverse ++ u.reverse := by
    have := congrArg List.reverse hu
    simpa [List.reverse_append] using this.symm
  have hstep : (((s.dropWhile wsJS).reverse.dropWhile wsJS).reverse).dropWhile wsJS =
      ((s.dropWhile wsJS).reverse.dropWhile wsJS).reverse := by
    cases hy : ((s.dropWhile wsJS).reverse.dropWhile wsJS).reverse with
    | nil => rfl
    | cons c t =>
      have hhead : (s.dropWhile wsJS).dropWhile wsJS = s.dropWhile wsJS := dropWhile_dw wsJS s
      have : s.dropWhile wsJS = c :: (t ++ u.reverse) := by
        rw [ha, hy]; simp
      have hc : wsJS c = false := by
        have := dropWhile_head_not wsJS s c (t ++ u.reverse) this
        exact this
      simp [List.dropWhile_cons, hc]
  rw [hstep, List.reverse_reverse, dropWhile_dw]

theorem extractTextL_idem (l : List Char)
    (h : ∀ c ∈ l, ¬ c = '<' ∧ ¬ c = '&') :
    extractTextL (extractTextL l) = extractTextL l := by
  have h1 : extractTextL l = jsTrim (scanRepl mSpTab 0 (scanRepl mNl3 0 l)) :=
    extractTextL_plain l h
  have hmemNl : ∀ c ∈ scanRepl mNl3 0 l, ¬ c = '<' ∧ ¬ c = '&' := by
    refine scanRepl_mem mNl3 _ ?_ l 0 h
    intro s len rep hm d hd
    unfold mNl3 at hm
    by_cases hsw : startsWithBy csEq nl3 s = true
    · rw [hsw, if_pos rfl] at hm
      have hrep : rep = ['\n', '\n'] := by
        cases hm
        rfl
      subst hrep
      have : d = '\n' := by
        rcases List.mem_cons.mp hd with h' | h'
        · exact h'
        · simpa using h'
      subst this
      exact ⟨by decide, by decide⟩
    · have hswf : startsWithBy csEq nl3 s = false := by simpa using hsw
      rw [hswf] at hm
      simp at hm
  have hmemSp : ∀ c ∈ scanRepl mSpTab 0 (scanRepl mNl3 0 l), ¬ c = '<' ∧ ¬ c = '&' := by
    refine scanRepl_mem mSpTab _ ?_ _ 0 hmemNl
    intro s len rep hm d hd
    cases s with
    | nil => simp [mSpTab] at hm
    | cons a t =>
      by_cases hb : (a == ' ' || a == '\t') = true
      · unfold mSpTab at hm
        simp only [hb, if_true] at hm
        have hrep : rep = [' '] := by
          cases hm
          rfl
        subst hrep
        have : d = ' ' := by simpa using hd
        subst this
        exact ⟨by decide, by decide⟩
      · unfold mSpTab at hm
        simp [hb] at hm
  have hy : ∀ c ∈ jsTrim (scanRepl mSpTab 0 (scanRepl mNl3 0 l)), ¬ c = '<' ∧ ¬ c = '&' :=
    fun c hc => hmemSp c (mem_jsTrim _ c hc)
  have h2 := extractTextL_plain (jsTrim (scanRepl mSpTab 0 (scanRepl mNl3 0 l))) hy
  have hnocc1 : occursWith csEq nl3 (scanRepl mNl3 0 l) = false :=
    (cn_props l.length l le_rfl).1
  have hnocc2 : occursWith csEq nl3 (scanRepl mSpTab 0 (scanRepl mNl3 0 l)) = false :=
    cs_no_nl3 (scanRepl mNl3 0 l).length _ le_rfl hnocc1
  have hnoccY : occursWith csEq nl3 (jsTrim (scanRepl mSpTab 0 (scanRepl mNl3 0 l))) = false := by
    by_contra hcon
    have htr : occursWith csEq nl3 (jsTrim (scanRepl mSpTab 0 (scanRepl mNl3 0 l))) = true := by
      revert hcon
      cases occursWith csEq nl3 (jsTrim (scanRepl mSpTab 0 (scanRepl mNl3 0 l))) <;> simp
    have := occursWith_jsTrim csEq nl3 _ htr
    rw [hnocc2] at this
    exact absurd this (by simp)
  have hcnY : scanRepl mNl3 0 (jsTrim (scanRepl mSpTab 0 (scanRepl mNl3 0 l))) =
      jsTrim (scanRepl mSpTab 0 (scanRepl mNl3 0 l)) := cn_id _ hnoccY
  have hsp2cs : occursWith csEq sp2 (scanRepl mSpTab 0 (scanRepl mNl3 0 l)) = false :=
    cs_no_sp2 (scanRepl mNl3 0 l).length _ le_rfl
  have hsp2Y : occursWith csEq sp2 (jsTrim (scanRepl mSpTab 0 (scanRepl mNl3 0 l))) = false := by
    by_contra hcon
    have htr : occursWith csEq sp2 (jsTrim (scanRepl mSpTab 0 (scanRepl mNl3 0 l))) = true := by
      revert hcon
      cases occursWith csEq sp2 (jsTrim (scanRepl mSpTab 0 (scanRepl mNl3 0 l))) <;> simp
    have := occursWith_jsTrim csEq sp2 _ htr
    rw [hsp2cs] at this
    exact absurd this (by simp)
  have htabY : ∀ c ∈ jsTrim (scanRepl mSpTab 0 (scanRepl mNl3 0 l)), ¬ c = '\t' :=
    fun c hc => cs_no_tab _ c (mem_jsTrim _ c hc)
  have hcsY : scanRepl mSpTab 0 (jsTrim (scanRepl mSpTab 0 (scanRepl mNl3 0 l))) =
      jsTrim (scanRepl mSpTab 0 (scanRepl mNl3 0 l)) := csL_id _ htabY hsp2Y
  have htrY := jsTrim_idem (scanRepl mSpTab 0 (scanRepl mNl3 0 l))
  rw [h1, h2, hcnY, hcsY, htrY]

/-- Claim C6: the content renderer is idempotent on markup-free plain text.
Markup-free is formalized as containing neither of the two markup-significant
characters of HTML: no `'<'` (so the text holds no tags) and no `'&'` (so it
holds no character entities — `extractText` decodes entities, and an entity
such as `&amp;lt;` decodes to markup that a second pass would strip). -/
theorem c6_renderer_idempotent (x : String)
    (h : x.data.all (fun c => !(c == '<') && !(c == '&')) = true) :
    extractText (extractText x) = extractText x := by
  obtain ⟨l⟩ := x
  have hl : ∀ c ∈ l, ¬ c = '<' ∧ ¬ c = '&' := by
    intro c hc
    have := List.all_eq_true.mp h c hc
    simpa using this
  have e2 : ∀ s : String, extractText s = ⟨extractTextL s.data⟩ := fun _ => rfl
  have e4 : ∀ z : List Char, (⟨z⟩ : String).data = z := fun _ => rfl
  simp only [e2, e4]
  rw [extractTextL_idem l hl]

/-- Claim C6, witness: idempotence at a concrete markup-free string. -/
theorem c6_witness :
    ("Hello  world\n\n\n\n\tbye " : String).data.all
      (fun c => !(c == '<') && !(c == '&')) = true ∧
    extractText (extractText "Hello  world\n\n\n\n\tbye ") =
      extractText "Hello  world\n\n\n\n\tbye " :=
  ⟨by decide, c6_renderer_idempotent "Hello  world\n\n\n\n\tbye " (by decide)⟩

/-! ## Dispatcher lemmas and the protocol claims -/

theorem callTool_shape (o : Oracles) (rid : Option JVal) (params : Option JVal) :
    (∃ m, callTool o rid params = .error m) ∨
    (∃ R, callTool o rid params = .ok (createJsonResponse (successEnvelope rid R))) := by
  unfold callTool
  cases optChain params "name" with
  | none => exact Or.inl ⟨_, rfl⟩
  | some nv =>
    by_cases ht : jsTruthy nv = true
    · simp only [ht, if_true]
      cases nv with
      | str s =>
        by_cases h1 : (s == "getwiki") = true
        · simp only [h1, if_true]
          by_cases hv : isOptionalStringArg (optChain params "arguments") = true
          · simp only [hv, if_true]
            exact Or.inr ⟨_, rfl⟩
          · simp only [eq_false_of_ne_true hv, Bool.false_eq_true, if_false]
            exact Or.inl ⟨_, rfl⟩
        · simp only [eq_false_of_ne_true h1, Bool.false_eq_true, if_false]
          by_cases h2 : (s == "getblog") = true
          · simp only [h2, if_true]
            by_cases hv : isOptionalStringArg (optChain params "arguments") = true
            · simp only [hv, if_true]
              exact Or.inr ⟨_, rfl⟩
            · simp only [eq_false_of_ne_true hv, Bool.false_eq_true, if_false]
              exact Or.inl ⟨_, rfl⟩
          · simp only [eq_false_of_ne_true h2, Bool.false_eq_true, if_false]
            by_cases h3 : (s == "getgithub") = true
            · simp only [h3, if_true]
              by_cases hv : isOptionalStringArg (optChain params "arguments") = true
              · simp only [hv, if_true]
                exact Or.inr ⟨_, rfl⟩
              · simp only [eq_false_of_ne_true hv, Bool.false_eq_true, if_false]
                exact Or.inl ⟨_, rfl⟩
            · simp only [eq_false_of_ne_true h3, Bool.false_eq_true, if_false]
              by_cases h4 : (s == "getmastodon") = true
              · simp only [h4, if_true]
                by_cases hv : isOptionalNumberArg (optChain params "arguments") = true
                · simp only [hv, if_true]
                  exact Or.inr ⟨_, rfl⟩
                · simp only [eq_false_of_ne_true hv, Bool.false_eq_true, if_false]
                  exact Or.inl ⟨_, rfl⟩
              · simp only [eq_false_of_ne_true h4, Bool.false_eq_true, if_false]
                exact Or.inl ⟨_, rfl⟩
      | null => exact Or.inl ⟨_, rfl⟩
      | bool b => exact Or.inl ⟨_, rfl⟩
      | num n => exact Or.inl ⟨_, rfl⟩
      | arr xs => exact Or.inl ⟨_, rfl⟩
      | obj fs => exact Or.inl ⟨_, rfl⟩
    · simp only [eq_false_of_ne_true ht, Bool.false_eq_true, if_false]
      exact Or.inl ⟨_, rfl⟩

theorem handleBody_shape (o : Oracles) (body : JVal) :
    (∃ m, handleBody o body = errorResponse m) ∨
    handleBody o body = { status := 204, body := none } ∨
    (∃ R, handleBody o body = createJsonResponse (successEnvelope (getId body) R)) := by
  unfold handleBody dispatch
  by_cases hreq : isMCPRequest body = true
  · simp only [hreq, if_true]
    by_cases h1 : (getMethod body == "tools/list") = true
    · simp only [h1, if_true]
      exact Or.inr (Or.inr ⟨_, rfl⟩)
    · simp only [eq_false_of_ne_true h1, Bool.false_eq_true, if_false]
      by_cases h2 : (getMethod body == "tools/call") = true
      · simp only [h2, if_true]
        rcases callTool_shape o (getId body) (getField body "params") with ⟨m, hm⟩ | ⟨R, hR⟩
        · rw [hm]
          exact Or.inl ⟨m, rfl⟩
        · rw [hR]
          exact Or.inr (Or.inr ⟨R, rfl⟩)
      · simp only [eq_false_of_ne_true h2, Bool.false_eq_true, if_false]
        by_cases h3 : (getMethod body == "initialize") = true
        · simp only [h3, if_true]
          exact Or.inr (Or.inr ⟨_, rfl⟩)
        · simp only [eq_false_of_ne_true h3, Bool.false_eq_true, if_false]
          by_cases h4 : (getMethod body == "notifications/initialized") = true
          · simp only [h4, if_true]
            exact Or.inr (Or.inl (by first | rfl | trivial))
          · simp only [eq_false_of_ne_true h4, Bool.false_eq_true, if_false]
            exact Or.inl ⟨_, rfl⟩
  · simp only [eq_false_of_ne_true hreq, Bool.false_eq_true, if_false]
    exact Or.inl ⟨_, rfl⟩

theorem respField_error_id (m : String) : respField (errorResponse m) "id" = none := rfl

theorem respField_error_result (m : String) :
    respField (errorResponse m) "result" = none := rfl

theorem respField_error_error (m : String) :
    respField (errorResponse m) "error" =
      some (.obj [("code", .num (-32603)), ("message", .str m)]) := rfl

theorem respErrorCode_error (m : String) :
    respErrorCode (errorResponse m) = some (.num (-32603)) := rfl

theorem respField_success_id (rid : Option JVal) (R : JVal) :
    respField (createJsonResponse (successEnvelope rid R)) "id" = rid := by
  cases rid <;> rfl

theorem respField_success_result (rid : Option JVal) (R : JVal) :
    respField (createJsonResponse (successEnvelope rid R)) "result" = some R := by
  cases rid <;> rfl

theorem respField_success_error (rid : Option JVal) (R : JVal) :
    respField (createJsonResponse (successEnvelope rid R)) "error" = none := by
  cases rid <;> rfl

/-- Claim C1, counterexample: the scenario of the claim — a `tools/call` naming
a nonexistent tool, with numeric id 2 — produces the catch-all error envelope,
and that envelope carries no `id` at all (the catch block at lines 549–555
builds `{jsonrpc, error}` without the request id), so the id is not echoed
as 2. -/
theorem c1_counterexample :
    handleBody sampleOracles
      (.obj [("jsonrpc", .str "2.0"), ("id", .num 2), ("method", .str "tools/call"),
             ("params", .obj [("name", .str "nonexistent")])]) =
      errorResponse "Unknown tool: nonexistent" ∧
    respField (handleBody sampleOracles
      (.obj [("jsonrpc", .str "2.0"), ("id", .num 2), ("method", .str "tools/call"),
             ("params", .obj [("name", .str "nonexistent")])])) "id" = none ∧
    getId (.obj [("jsonrpc", .str "2.0"), ("id", .num 2), ("method", .str "tools/call"),
             ("params", .obj [("name", .str "nonexistent")])]) = some (.num 2) :=
  ⟨rfl, rfl, rfl⟩

/-- Claim C1, amended: success envelopes (`tools/list`, successful `tools/call`,
`initialize`) echo the request's `id` exactly, with type and value preserved;
error envelopes never carry an `id` — the catch-all handler omits the field.
In particular the nonexistent-tool scenario returns an error envelope with no
`id`, not one echoing 2. -/
theorem c1_id_echo (o : Oracles) (body : JVal) :
    ((respField (handleBody o body) "result").isSome = true →
      respField (handleBody o body) "id" = getId body) ∧
    ((respField (handleBody o body) "error").isSome = true →
      respField (handleBody o body) "id" = none) := by
  rcases handleBody_shape o body with ⟨m, hm⟩ | h204 | ⟨R, hR⟩
  · rw [hm]
    constructor
    · intro h
      rw [respField_error_result] at h
      simp at h
    · intro _
      exact respField_error_id m
  · rw [h204]
    constructor
    · intro h
      simp [respField] at h
    · intro h
      simp [respField] at h
  · rw [hR]
    constructor
    · intro _
      exact respField_success_id _ _
    · intro h
      rw [respField_success_error] at h
      simp at h

/-- Claim C1, witness: a `tools/list` call with numeric id 1 echoes it, and a
malformed body gets an error envelope without id. -/
theorem c1_witness :
    respField (handleBody sampleOracles
      (.obj [("id", .num 1), ("method", .str "tools/list")])) "id" = some (.num 1) ∧
    respField (handleBody sampleOracles (.num 3)) "id" = none := by
  constructor
  · have h := (c1_id_echo sampleOracles
      (.obj [("id", .num 1), ("method", .str "tools/list")])).1 rfl
    rw [h]
    rfl
  · exact (c1_id_echo sampleOracles (.num 3)).2 rfl

/-- Claim C2, counterexample: a malformed envelope (body `3`) is answered with
the JSON-RPC -32603 error object, but at HTTP status 500 — not a 200-level
transport success (the catch block passes status 500 to
`createJsonResponse`). -/
theorem c2_counterexample :
    handleBody sampleOracles (.num 3) = errorResponse "Invalid MCP request" ∧
    (handleBody sampleOracles (.num 3)).status = 500 ∧
    ¬ (handleBody sampleOracles (.num 3)).status / 100 = 2 :=
  ⟨rfl, rfl, by decide⟩

/-- Claim C2, amended: every protocol-level failure after transport
gatekeeping (malformed envelope, unknown method, missing tool name, unknown
tool, invalid arguments) is returned as an HTTP **500** response whose body is
a JSON-RPC error object with code -32603 — uniformly, for every response that
carries an `error` member. -/
theorem c2_protocol_errors (o : Oracles) (body : JVal)
    (h : (respField (handleBody o body) "error").isSome = true) :
    (handleBody o body).status = 500 ∧
    respErrorCode (handleBody o body) = some (.num (-32603)) := by
  rcases handleBody_shape o body with ⟨m, hm⟩ | h204 | ⟨R, hR⟩
  · rw [hm]
    exact ⟨rfl, respErrorCode_error m⟩
  · rw [h204] at h
    simp [respField] at h
  · rw [hR] at h
    rw [respField_success_error] at h
    simp at h

/-- Claim C2, witness: the malformed-envelope failure at a concrete input. -/
theorem c2_witness :
    (respField (handleBody sampleOracles (.num 3)) "error").isSome = true ∧
    (handleBody sampleOracles (.num 3)).status = 500 ∧
    respErrorCode (handleBody sampleOracles (.num 3)) = some (.num (-32603)) :=
  ⟨rfl, (c2_protocol_errors sampleOracles (.num 3) rfl).1,
    (c2_protocol_errors sampleOracles (.num 3) rfl).2⟩

/-- Claim C7: every method string other than the four handled ones is answered
with the catch-all JSON-RPC error, code -32603 (see `errorResponse`), whose
message is `"Unknown method: "` followed by the offending method name — so the
message contains that name. -/
theorem c7_unknown_method (o : Oracles) (body : JVal) (m : String)
    (hreq : isMCPRequest body = true) (hm : getMethod body = m)
    (h1 : ¬ m = "tools/list") (h2 : ¬ m = "tools/call")
    (h3 : ¬ m = "initialize") (h4 : ¬ m = "notifications/initialized") :
    handleBody o body = errorResponse ("Unknown method: " ++ m) ∧
    ∃ p, "Unknown method: " ++ m = p ++ m := by
  constructor
  · have b1 : (m == "tools/list") = false := beq_eq_false_iff_ne.mpr h1
    have b2 : (m == "tools/call") = false := beq_eq_false_iff_ne.mpr h2
    have b3 : (m == "initialize") = false := beq_eq_false_iff_ne.mpr h3
    have b4 : (m == "notifications/initialized") = false := beq_eq_false_iff_ne.mpr h4
    unfold handleBody dispatch
    simp only [hreq, hm, b1, b2, b3, b4, if_true, Bool.false_eq_true, if_false]
  · exact ⟨"Unknown method: ", rfl⟩

/-- Claim C7, witness: the unknown method `"foo/bar"`. -/
theorem c7_witness :
    isMCPRequest (.obj [("method", .str "foo/bar")]) = true ∧
    handleBody sampleOracles (.obj [("method", .str "foo/bar")]) =
      errorResponse ("Unknown method: " ++ "foo/bar") :=
  ⟨rfl, (c7_unknown_method sampleOracles (.obj [("method", .str "foo/bar")]) "foo/bar"
    rfl rfl (by decide) (by decide) (by decide) (by decide)).1⟩

/-- Claim C10: a `notifications/initialized` request is answered with the
empty 204 response and no JSON-RPC envelope, with no condition on `id` — the
dispatcher never checks that a notification lacks an id (the witness carries
`id` 7). -/
theorem c10_notification_204 (o : Oracles) (body : JVal)
    (hreq : isMCPRequest body = true)
    (hm : getMethod body = "notifications/initialized") :
    handleBody o body = { status := 204, body := none } := by
  have b1 : (("notifications/initialized" : String) == "tools/list") = false := by decide
  have b2 : (("notifications/initialized" : String) == "tools/call") = false := by decide
  have b3 : (("notifications/initialized" : String) == "initialize") = false := by decide
  have b4 : (("notifications/initialized" : String) ==
    "notifications/initialized") = true := by decide
  unfold handleBody dispatch
  simp only [hreq, hm, b1, b2, b3, b4, if_true, Bool.false_eq_true, if_false]

/-- Claim C10, witness: the notification with an id present still gets the
bare 204 response. -/
theorem c10_witness :
    isMCPRequest (.obj [("id", .num 7),
      ("method", .str "notifications/initialized")]) = true ∧
    handleBody sampleOracles (.obj [("id", .num 7),
      ("method", .str "notifications/initialized")]) =
      { status := 204, body := none } :=
  ⟨rfl, c10_notification_204 sampleOracles
    (.obj [("id", .num 7), ("method", .str "notifications/initialized")]) rfl rfl⟩

theorem wiki_shape (o : Oracles) (a : StrArgs) :
    (∃ t, (handleGetWiki o a).content = [⟨"text", t⟩]) ∧
    (handleGetWiki o a).isError = (if wikiFailed o a then some true else none) := by
  unfold handleGetWiki wikiFailed
  by_cases hp : oStrTruthy a.path = true
  · simp only [hp, if_true]
    by_cases he : oStrTruthy (o.wikiPage (a.path.getD "")).error = true
    · simp only [he, if_true, toolResult]
      exact ⟨⟨_, rfl⟩, by first | rfl | trivial⟩
    · simp only [eq_false_of_ne_true he, Bool.false_eq_true, if_false, toolResult]
      exact ⟨⟨_, rfl⟩, by first | rfl | trivial⟩
  · simp only [eq_false_of_ne_true hp, Bool.false_eq_true, if_false]
    by_cases he : oStrTruthy o.wikiPages.error = true
    · simp only [he, if_true, toolResult]
      exact ⟨⟨_, rfl⟩, by first | rfl | trivial⟩
    · simp only [eq_false_of_ne_true he, Bool.false_eq_true, if_false, toolResult]
      exact ⟨⟨_, rfl⟩, by first | rfl | trivial⟩

theorem blog_shape (o : Oracles) (a : StrArgs) :
    (∃ t, (handleGetBlog o a).content = [⟨"text", t⟩]) ∧
    (handleGetBlog o a).isError = (if blogFailed o a then some true else none) := by
  unfold handleGetBlog blogFailed
  by_cases hp : oStrTruthy a.slug = true
  · simp only [hp, if_true]
    by_cases he : oStrTruthy (o.blogPost (a.slug.getD "")).error = true
    · simp only [he, if_true, toolResult]
      exact ⟨⟨_, rfl⟩, by first | rfl | trivial⟩
    · simp only [eq_false_of_ne_true he, Bool.false_eq_true, if_false, toolResult]
      exact ⟨⟨_, rfl⟩, by first | rfl | trivial⟩
  · simp only [eq_false_of_ne_true hp, Bool.false_eq_true, if_false]
    by_cases he : oStrTruthy o.blogPosts.error = true
    · simp only [he, if_true, toolResult]
      exact ⟨⟨_, rfl⟩, by first | rfl | trivial⟩
    · simp only [eq_false_of_ne_true he, Bool.false_eq_true, if_false, toolResult]
      exact ⟨⟨_, rfl⟩, by first | rfl | trivial⟩

theorem gh_shape (o : Oracles) (a : StrArgs) :
    (∃ t, (handleGetGithub o a).content = [⟨"text", t⟩]) ∧
    (handleGetGithub o a).isError = (if ghFailed o a then some true else none) := by
  unfold handleGetGithub ghFailed
  by_cases hp : oStrTruthy a.repo = true
  · simp only [hp, if_true]
    by_cases he : oStrTruthy (o.ghRepo (a.repo.getD "")).error = true
    · simp only [he, if_true, toolResult]
      exact ⟨⟨_, rfl⟩, by first | rfl | trivial⟩
    · simp only [eq_false_of_ne_true he, Bool.false_eq_true, if_false, toolResult]
      exact ⟨⟨_, rfl⟩, by first | rfl | trivial⟩
  · simp only [eq_false_of_ne_true hp, Bool.false_eq_true, if_false]
    by_cases he : oStrTruthy o.ghProfile.error = true
    · simp only [he, if_true, toolResult]
      exact ⟨⟨_, rfl⟩, by first | rfl | trivial⟩
    · simp only [eq_false_of_ne_true he, Bool.false_eq_true, if_false, toolResult]
      exact ⟨⟨_, rfl⟩, by first | rfl | trivial⟩

theorem masto_shape (o : Oracles) (na : NumArgs) :
    (∃ t, (handleGetMastodon o na).content = [⟨"text", t⟩]) ∧
    (handleGetMastodon o na).isError = (if mastoFailed o na then some true else none) := by
  unfold handleGetMastodon mastoFailed
  by_cases he : oStrTruthy (o.masto (mastoLimit na.limit)).error = true
  · simp only [he, if_true, toolResult]
    exact ⟨⟨_, rfl⟩, by first | rfl | trivial⟩
  · simp only [eq_false_of_ne_true he, Bool.false_eq_true, if_false, toolResult]
    exact ⟨⟨_, rfl⟩, by first | rfl | trivial⟩

/-- Claim C3: every result of the four tool handlers has exactly one content
item, of type `"text"` with a (typed) string text, and its `isError` field
equals `some true` exactly when the handler took a failure branch (a truthy
`error` on the fetch result it consulted) and is absent (`none`) — never
`some false` — otherwise. -/
theorem c3_tool_result_shape (o : Oracles) (a : StrArgs) (na : NumArgs) :
    ((∃ t, (handleGetWiki o a).content = [⟨"text", t⟩]) ∧
      (handleGetWiki o a).isError = (if wikiFailed o a then some true else none)) ∧
    ((∃ t, (handleGetBlog o a).content = [⟨"text", t⟩]) ∧
      (handleGetBlog o a).isError = (if blogFailed o a then some true else none)) ∧
    ((∃ t, (handleGetGithub o a).content = [⟨"text", t⟩]) ∧
      (handleGetGithub o a).isError = (if ghFailed o a then some true else none)) ∧
    ((∃ t, (handleGetMastodon o na).content = [⟨"text", t⟩]) ∧
      (handleGetMastodon o na).isError = (if mastoFailed o na then some true else none)) :=
  ⟨wiki_shape o a, blog_shape o a, gh_shape o a, masto_shape o na⟩

/-- Claim C4, counterexample: with `limit` 50 — present but out of range — the
effective limit is the clamped 40, not the default 10, refuting "the default 10
is used when the limit argument is absent **or out of range**". -/
theorem c4_counterexample :
    mastoLimit (some 50) = 40 ∧ ¬ (40 : Int) = 10 :=
  ⟨by decide, by decide⟩

/-- Claim C4, amended: the `getmastodon` validator only checks that `limit`,
when present, is a number; the handler clamps the effective limit into
`[1, 40]` and passes exactly that clamped value to the fetch.  The default 10
is used when the limit is absent or `0` (falsy under `||`); an out-of-range
limit is clamped to the nearest bound (40 from above, 1 from below), not
replaced by the default. -/
theorem c4_limit_clamped :
    (∀ n : Int, isOptionalNumberArg (some (.obj [("limit", .num n)])) = true) ∧
    (∀ l : Option Int, 1 ≤ mastoLimit l ∧ mastoLimit l ≤ 40) ∧
    mastoLimit none = 10 ∧
    mastoLimit (some 0) = 10 ∧
    (∀ v : Int, 40 < v → mastoLimit (some v) = 40) ∧
    (∀ v : Int, v < 1 → ¬ v = 0 → mastoLimit (some v) = 1) ∧
    (∀ (o : Oracles) (na : NumArgs), handleGetMastodon o na =
      (if oStrTruthy (o.masto (mastoLimit na.limit)).error
       then toolResult ((o.masto (mastoLimit na.limit)).error.getD "") true
       else toolResult (mastoText ((o.masto (mastoLimit na.limit)).account.getD defaultAccount)
              ((o.masto (mastoLimit na.limit)).posts.getD [])))) := by
  refine ⟨fun n => rfl, ?_, by decide, by decide, ?_, ?_, fun o na => rfl⟩
  · intro l
    cases l with
    | none => constructor <;> decide
    | some v =>
      unfold mastoLimit
      by_cases hv : (v == 0) = true
      · simp only [hv, if_true]
        constructor <;> decide
      · simp only [eq_false_of_ne_true hv, Bool.false_eq_true, if_false]
        constructor <;> omega
  · intro v hv
    have h0 : (v == 0) = false := by
      have : ¬ v = 0 := by omega
      exact beq_eq_false_iff_ne.mpr this
    unfold mastoLimit
    simp only [h0, Bool.false_eq_true, if_false]
    omega
  · intro v hv hv0
    have h0 : (v == 0) = false := beq_eq_false_iff_ne.mpr hv0
    unfold mastoLimit
    simp only [h0, Bool.false_eq_true, if_false]
    omega

/-- Claim C4, witness: the clamp at concrete limits. -/
theorem c4_witness :
    mastoLimit (some 99) = 40 ∧ mastoLimit (some (-7)) = 1 ∧ mastoLimit none = 10 ∧
    isOptionalNumberArg (some (.obj [("limit", .num 99)])) = true :=
  ⟨c4_limit_clamped.2.2.2.2.1 99 (by decide),
   c4_limit_clamped.2.2.2.2.2.1 (-7) (by decide) (by decide),
   c4_limit_clamped.2.2.1,
   c4_limit_clamped.1 99⟩

/-- Claim C8: for `getwiki`, `getblog` and `getgithub`, a selector argument
that is present but equal to the empty string is treated exactly as if it were
omitted: the handler takes the index/listing branch, and — since the equality
holds for any two oracle assignments that agree on the listing fetch while the
single-item fetches differ arbitrarily — it never attempts the single-item
fetch. -/
theorem c8_empty_selector (o o2 : Oracles) (sl rp ot os : Option String)
    (hw : o.wikiPages = o2.wikiPages) (hb : o.blogPosts = o2.blogPosts)
    (hg : o.ghProfile = o2.ghProfile) :
    handleGetWiki o ⟨some "", sl, rp⟩ = handleGetWiki o2 ⟨none, sl, rp⟩ ∧
    handleGetBlog o ⟨ot, some "", rp⟩ = handleGetBlog o2 ⟨ot, none, rp⟩ ∧
    handleGetGithub o ⟨ot, os, some ""⟩ = handleGetGithub o2 ⟨ot, os, none⟩ := by
  refine ⟨?_, ?_, ?_⟩ <;>
    simp [handleGetWiki, handleGetBlog, handleGetGithub, oStrTruthy, hw, hb, hg]

/-- Claim C8, witness: the three handlers at empty-string and absent
selectors over the sample oracles. -/
theorem c8_witness :
    handleGetWiki sampleOracles ⟨some "", none, none⟩ =
      handleGetWiki sampleOracles ⟨none, none, none⟩ ∧
    handleGetBlog sampleOracles ⟨none, some "", none⟩ =
      handleGetBlog sampleOracles ⟨none, none, none⟩ ∧
    handleGetGithub sampleOracles ⟨none, none, some ""⟩ =
      handleGetGithub sampleOracles ⟨none, none, none⟩ :=
  c8_empty_selector sampleOracles sampleOracles none none none none rfl rfl rfl

/-- Claim C9: the three string-argument tools share `isOptionalStringArg`, so a
`tools/call` for any of `getwiki`, `getblog`, `getgithub` whose arguments
carry any of the keys `path`, `slug`, `repo` with a non-string value is
rejected as "Invalid arguments" — even when the key is not declared in the
called tool's input schema. -/
theorem c9_shared_validator (o : Oracles) (tool key : String) (v : JVal)
    (htool : tool ∈ (["getwiki", "getblog", "getgithub"] : List String))
    (hkey : key ∈ (["path", "slug", "repo"] : List String))
    (hv : isStrB v = false) :
    handleBody o (.obj [("method", .str "tools/call"),
      ("params", .obj [("name", .str tool), ("arguments", .obj [(key, v)])])]) =
      errorResponse "Invalid arguments" := by
  have htool' : tool = "getwiki" ∨ tool = "getblog" ∨ tool = "getgithub" := by
    simpa using htool
  have hkey' : key = "path" ∨ key = "slug" ∨ key = "repo" := by
    simpa using hkey
  rcases htool' with rfl | rfl | rfl <;> rcases hkey' with rfl | rfl | rfl <;>
    cases v <;> first | rfl | (exfalso; simp [isStrB] at hv)

/-- Claim C9, witness: `getwiki` called with a numeric `repo` — a key absent
from getwiki's schema — is rejected as invalid arguments. -/
theorem c9_witness :
    handleBody sampleOracles (.obj [("method", .str "tools/call"),
      ("params", .obj [("name", .str "getwiki"),
        ("arguments", .obj [("repo", .num 5)])])]) =
      errorResponse "Invalid arguments" :=
  c9_shared_validator sampleOracles "getwiki" "repo" (.num 5)
    (by decide) (by decide) rfl

end CaseyMCP
